import Mathlib

/-
Verification of the Calendar-Sync & Notification Scheduling Pipeline of the
mevoaiwebsite repository, as a shallow embedding in Lean 4.

The embedding follows the JavaScript sources:
  * services/scheduler.service.js   (sendCleaningNotifications, addJob, runJob)
  * services/webhook.service.js     (parseEvent, syncProperty)
  * services/notification.service.js (send, sendWhatsApp, sendCleaningNotification)
  * the queue/worker service        (addNotificationJob synchronous fallback,
                                     syncPropertyCalendar)
  * src/databaseService.js          (filterEventsForDate, aggregateEvents)
  * backend/services/ical.service.js (fetchEvents, filterCheckoutsForDate)
  * the express scheduler entrypoint (buildMessage, runDailyRoutine)

Instants are modelled as integer milliseconds since the Unix epoch (UTC).
The configured zone America/Sao_Paulo is a fixed UTC-3 offset (no DST since
2019), so a luxon/dayjs `startOf('day')` boundary is an exact arithmetic
fact about the offset.  Databases are lists of rows; asynchronous I/O
(calendar fetch, message dispatch) is a function parameter, so a run of a
job is a deterministic function of the database state, the configuration
and those environments.
-/

namespace Mevo

/-! ## Time model -/

/-- Milliseconds in one civil day. -/
def msPerDay : Int := 86400000

/-- Fixed offset of America/Sao_Paulo relative to UTC, in milliseconds (UTC-3). -/
def spOffsetMs : Int := -10800000

/-- The civil date (day index since the epoch) on which a UTC instant falls
in the configured zone; this is what `dayjs(x).format('YYYY-MM-DD')` and
luxon `setZone` followed by `startOf('day')` comparisons observe. -/
def localDay (utcMs : Int) : Int := (utcMs + spOffsetMs) / msPerDay

/-- First instant (UTC ms) of the given local civil day, i.e. luxon
`startOf('day')` of any instant on that day in the configured zone. -/
def dayStartMs (day : Int) : Int := day * msPerDay - spOffsetMs

/-! ## iCal events and the checkout-day filters -/

/-- A raw parsed calendar entry as node-ical produces it: `type === 'VEVENT'`
is the `isVevent` flag, `start`/`end` are optional instants. -/
structure VEvent where
  uid : String
  summary : String
  isVevent : Bool
  startMs : Option Int
  endMs : Option Int
deriving DecidableEq

/-- The effective end used by `filterEventsForDate`: `entry.end || entry.start`. -/
def effEndMs (e : VEvent) : Option Int :=
  match e.endMs with
  | some m => some m
  | none => e.startMs

/-- Embedding of `filterEventsForDate` (src/databaseService.js): keep
`VEVENT` entries having a `start`, and keep an event iff its end instant
lies between `startOf('day')` and `endOf('day')` of the target date in the
configured zone.  The ISO-string re-mapping and the sort of the source are
order/format only and do not affect membership. -/
def filterEventsForDate (events : List VEvent) (targetDay : Int) : List VEvent :=
  (events.filter (fun e => e.isVevent && e.startMs.isSome)).filter
    (fun e =>
      match effEndMs e with
      | some m =>
          decide (dayStartMs targetDay ≤ m) && decide (m ≤ dayStartMs targetDay + msPerDay - 1)
      | none => false)

/-- Embedding of `filterCheckoutsForDate` (backend/services/ical.service.js):
an event with no `end` is dropped, otherwise it is kept iff
`dayjs(event.end).format('YYYY-MM-DD')` equals the formatted target date. -/
def filterCheckoutsForDate (events : List VEvent) (targetDay : Int) : List VEvent :=
  events.filter (fun e =>
    match e.endMs with
    | none => false
    | some m => decide (localDay m = targetDay))

/-! ## Platform summary parsing (webhook.service.js parseEvent) -/

/-- Whitespace as matched by the regex class and by `String.prototype.trim`
on the summaries at hand. -/
def jsWs (c : Char) : Bool := c == ' ' || c == '\t' || c == '\n' || c == '\r'

/-- JavaScript `trim()` on a string (both ends). -/
def jsTrim (s : String) : String :=
  ⟨(((s.data.dropWhile jsWs).reverse).dropWhile jsWs).reverse⟩

/-- A character allowed in an Airbnb confirmation code: the class `[A-Z0-9]`. -/
def isCodeChar (c : Char) : Bool := ('A' ≤ c && c ≤ 'Z') || ('0' ≤ c && c ≤ '9')

/-- Decide whether `pat` is a prefix of `txt` (character lists). -/
def listStartsWith : List Char → List Char → Bool
  | [], _ => true
  | _ :: _, [] => false
  | a :: as, b :: bs => a == b && listStartsWith as bs

/-- Decide whether `pat` occurs as a contiguous substring of `txt`;
this is JavaScript `String.prototype.includes`. -/
def listContainsSub : List Char → List Char → Bool
  | [], pat => listStartsWith pat []
  | c :: t, pat => listStartsWith pat (c :: t) || listContainsSub t pat

/-- JavaScript `s.includes(sub)`. -/
def strIncludes (s sub : String) : Bool := listContainsSub s.data sub.data

/-- JavaScript `toLowerCase()` on the classification vocabulary, whose
case-bearing characters are ASCII. -/
def jsToLower (s : String) : String := ⟨s.data.map Char.toLower⟩

/-- Result of matching the Airbnb summary against
`^(.+?)\s*\(([A-Z0-9]+)\)$`: when the summary ends in `(CODE)` with a
nonempty `[A-Z0-9]` code and a nonempty prefix before the last opening
parenthesis, the match yields (`match[1].trim()`, `match[2]`); the lazy
`.+?` followed by greedy `\s*` makes `match[1].trim()` equal to the trim of
that whole prefix. -/
def airbnbSummaryMatch (s : String) : Option (String × String) :=
  match s.data.reverse with
  | ')' :: rest =>
    let codeRev := rest.takeWhile (fun c => c != '(')
    match rest.drop codeRev.length with
    | '(' :: preRev =>
      if codeRev.isEmpty || !(codeRev.all isCodeChar) || preRev.isEmpty then none
      else some (jsTrim ⟨preRev.reverse⟩, ⟨codeRev.reverse⟩)
    | _ => none
  | _ => none

/-- Result of matching the Booking summary against `^CLOSED\s*-\s*(.+)$/i`:
a case-insensitive `CLOSED`, optional whitespace, a dash, and a nonempty
remainder; the value is `match[1].trim()`. -/
def bookingSummaryMatch (s : String) : Option String :=
  if (s.data.take 6).map Char.toLower == "closed".data then
    match (s.data.drop 6).dropWhile jsWs with
    | '-' :: tail => if tail.isEmpty then none else some (jsTrim ⟨tail⟩)
    | _ => none
  else none

/-- The summary-derived classification of `parseEvent`
(services/webhook.service.js): guest name, Airbnb confirmation code and the
blocked flag.  The date fields and the description-derived fields (guest
phone, Booking confirmation number) are independent of the summary logic
and are not needed here; with an absent description they are null. -/
structure ParsedSummary where
  guestName : String
  confirmationCode : Option String
  isBlocked : Bool
deriving DecidableEq

/-- Embedding of the summary classification of `parseEvent`: platform
patterns first, then the placeholder vocabulary check
(`blocked`, `not available`, `unavailable` in the lowercased summary) or a
defaulted guest name make the event blocked. -/
def parseEventSummary (source : String) (summary : String) : ParsedSummary :=
  let nameCode : String × Option String :=
    if source == "airbnb" then
      match airbnbSummaryMatch summary with
      | some nc => (nc.1, some nc.2)
      | none =>
          if summary != "Reserved" && summary != "Blocked" then (summary, none)
          else ("Hóspede", none)
    else if source == "booking" then
      match bookingSummaryMatch summary with
      | some n => (n, none)
      | none =>
          if !(strIncludes summary "CLOSED") && !(strIncludes summary "Not available") then
            (summary, none)
          else ("Hóspede", none)
    else ("Hóspede", none)
  let lower := jsToLower summary
  { guestName := nameCode.1
    confirmationCode := nameCode.2
    isBlocked :=
      strIncludes lower "blocked" || strIncludes lower "not available" ||
        strIncludes lower "unavailable" || nameCode.1 == "Hóspede" }

/-! ## Concrete instants for the checkout-day test -/

/-- Day index (days since 1970-01-01) of the civil date 2024-11-23:
54 full years (13 leap days) to 2024-01-01 give 19723, and 2024-11-23 is
day 327 of the leap year 2024. -/
def day20241123 : Int := 20050

/-- The instant 2024-11-23T11:00:00-03:00, i.e. 2024-11-23T14:00:00Z, in
milliseconds since the epoch. -/
def msC2End : Int := (20050 * 86400 + 14 * 3600) * 1000

/-- A reservation event ending at 2024-11-23T11:00:00-03:00. -/
def evC2 : VEvent :=
  { uid := "uid-1", summary := "Maria Silva (HMABC123)", isVevent := true
    startMs := some (msC2End - 86400000), endMs := some msC2End }

/-- The luxon day window `[startOf('day'), endOf('day')]` in integer
milliseconds holds exactly when the instant falls on that local civil day. -/
theorem window_iff_localDay (m d : Int) :
    (dayStartMs d ≤ m ∧ m ≤ dayStartMs d + msPerDay - 1) ↔ localDay m = d := by
  simp only [dayStartMs, localDay, msPerDay, spOffsetMs]
  omega

/-- Membership in `filterEventsForDate` is exactly: a VEVENT with a start
whose effective end instant falls on the target local civil day. -/
theorem mem_filterEventsForDate (events : List VEvent) (e : VEvent) (d : Int) :
    e ∈ filterEventsForDate events d ↔
      e ∈ events ∧ e.isVevent = true ∧ e.startMs.isSome = true ∧
        (effEndMs e).map localDay = some d := by
  have hp : ∀ (x : Option Int),
      ((match x with
        | some m => decide (dayStartMs d ≤ m) && decide (m ≤ dayStartMs d + msPerDay - 1)
        | none => false) = true) ↔ x.map localDay = some d := by
    intro x
    cases x with
    | none => simp
    | some m =>
        simp only [Option.map_some', Option.some.injEq, Bool.and_eq_true, decide_eq_true_eq]
        exact window_iff_localDay m d
  simp only [filterEventsForDate, List.mem_filter, Bool.and_eq_true, and_assoc]
  exact and_congr_right fun _ => and_congr_right fun _ => and_congr_right fun _ =>
    hp (effEndMs e)

/-- Membership in `filterCheckoutsForDate` is exactly: the event has an end
whose local civil date equals the target date. -/
theorem mem_filterCheckoutsForDate (events : List VEvent) (e : VEvent) (d : Int) :
    e ∈ filterCheckoutsForDate events d ↔
      e ∈ events ∧ e.endMs.map localDay = some d := by
  have hp : ∀ (x : Option Int),
      ((match x with
        | none => false
        | some m => decide (localDay m = d)) = true) ↔ x.map localDay = some d := by
    intro x
    cases x with
    | none => simp
    | some m => simp [decide_eq_true_eq, eq_comm]
  simp only [filterCheckoutsForDate, List.mem_filter]
  exact and_congr_right fun _ => hp e.endMs

/-- C2.  Checkout-day membership: both filters include an event iff its end
instant falls on the target calendar date in the configured local zone
(`filterEventsForDate` additionally requires a VEVENT with a start, and
falls back to the start when the end is absent); concretely, the event
ending 2024-11-23T11:00:00-03:00 is included for target date 2024-11-23 in
America/Sao_Paulo and excluded for 2024-11-22 and 2024-11-24, under both
`filterEventsForDate` and `filterCheckoutsForDate`. -/
theorem C2_checkout_day_membership :
    (∀ (events : List VEvent) (e : VEvent) (d : Int),
        e ∈ filterEventsForDate events d ↔
          e ∈ events ∧ e.isVevent = true ∧ e.startMs.isSome = true ∧
            (effEndMs e).map localDay = some d) ∧
    (∀ (events : List VEvent) (e : VEvent) (d : Int),
        e ∈ filterCheckoutsForDate events d ↔
          e ∈ events ∧ e.endMs.map localDay = some d) ∧
    (evC2 ∈ filterEventsForDate [evC2] day20241123 ∧
      evC2 ∉ filterEventsForDate [evC2] (day20241123 - 1) ∧
      evC2 ∉ filterEventsForDate [evC2] (day20241123 + 1) ∧
      evC2 ∈ filterCheckoutsForDate [evC2] day20241123 ∧
      evC2 ∉ filterCheckoutsForDate [evC2] (day20241123 - 1) ∧
      evC2 ∉ filterCheckoutsForDate [evC2] (day20241123 + 1)) := by
  refine ⟨mem_filterEventsForDate, mem_filterCheckoutsForDate, ?_, ?_, ?_, ?_, ?_, ?_⟩ <;> decide

/-- C5.  Platform summary classification of `parseEvent`: the Airbnb summary
"Maria Silva (HMABC123)" yields guest "Maria Silva", code "HMABC123",
not blocked; "Blocked" is blocked; the Booking summary
"CLOSED - João Pereira" yields guest "João Pereira", not blocked;
"Not available" is blocked. -/
theorem C5_platform_parsing :
    parseEventSummary "airbnb" "Maria Silva (HMABC123)" =
      { guestName := "Maria Silva", confirmationCode := some "HMABC123", isBlocked := false } ∧
    (parseEventSummary "airbnb" "Blocked").isBlocked = true ∧
    (parseEventSummary "booking" "CLOSED - João Pereira").guestName = "João Pereira" ∧
    (parseEventSummary "booking" "CLOSED - João Pereira").isBlocked = false ∧
    (parseEventSummary "booking" "Not available").isBlocked = true :=
  ⟨by decide, by decide, by decide, by decide, by decide⟩

/-! ## Calendar fetch and aggregation (aggregateEvents, fetchEvents) -/

/-- A calendar reference as assembled for `aggregateEvents`: a URL plus the
owning property's data. -/
structure CalendarRef where
  url : Option String
  propertyId : Nat
  propertyName : String
  platform : String
deriving DecidableEq

/-- An aggregated per-calendar result row of `aggregateEvents`: either a
filtered event enriched with the property data, or an error entry carrying
the failure message. -/
structure AggEvent where
  error : Option String
  uid : String
  endMs : Option Int
  propertyId : Nat
  propertyName : String
  platform : String
deriving DecidableEq

/-- Embedding of `fetchEvents` (backend/services/ical.service.js): a falsy
URL yields `[]`; otherwise the fetch-and-parse environment either returns
entries, of which the VEVENTs are kept, or fails, in which case the error
is logged and the result is `[]`. -/
def fetchEvents (fetch : String → Except String (List VEvent)) (url : Option String) :
    List VEvent :=
  match url with
  | none => []
  | some u =>
    match fetch u with
    | .ok evs => evs.filter (fun e => e.isVevent)
    | .error _ => []

/-- One calendar's contribution inside `aggregateEvents`
(src/databaseService.js): no URL contributes nothing; a successful fetch
contributes the events of the target date enriched with the property data;
a failed fetch contributes a single error entry for that calendar. -/
def aggOne (fetch : String → Except String (List VEvent)) (targetDay : Int)
    (cal : CalendarRef) : List AggEvent :=
  match cal.url with
  | none => []
  | some u =>
    match fetch u with
    | .ok evs =>
      (filterEventsForDate evs targetDay).map (fun e =>
        { error := none, uid := e.uid, endMs := effEndMs e, propertyId := cal.propertyId
          propertyName := cal.propertyName, platform := cal.platform })
    | .error msg =>
      [{ error := some msg, uid := "", endMs := none, propertyId := cal.propertyId
         propertyName := cal.propertyName, platform := cal.platform }]

/-- Embedding of `aggregateEvents`: every calendar is processed
independently and the per-calendar results are concatenated. -/
def aggregateEvents (fetch : String → Except String (List VEvent)) (targetDay : Int)
    (cals : List CalendarRef) : List AggEvent :=
  (cals.map (aggOne fetch targetDay)).flatten

/-- C8.  Calendar-fetch fault isolation: a fetch or parse error makes
`fetchEvents` return the empty list; `aggregateEvents` is the concatenation
of independent per-calendar results, each depending only on the fetch of
its own URL; and a calendar whose fetch fails contributes exactly one error
entry, so a failure for one property's calendar never disturbs the events
aggregated for the other properties of the same run. -/
theorem C8_calendar_fault_isolation :
    (∀ (fetch : String → Except String (List VEvent)) (url msg : String),
        fetch url = .error msg → fetchEvents fetch (some url) = []) ∧
    (∀ (fetch : String → Except String (List VEvent)) (targetDay : Int)
        (cal : CalendarRef) (cals : List CalendarRef),
        aggregateEvents fetch targetDay (cal :: cals) =
          aggOne fetch targetDay cal ++ aggregateEvents fetch targetDay cals) ∧
    (∀ (fetchA fetchB : String → Except String (List VEvent)) (targetDay : Int)
        (cal : CalendarRef),
        (∀ u, cal.url = some u → fetchA u = fetchB u) →
        aggOne fetchA targetDay cal = aggOne fetchB targetDay cal) ∧
    (∀ (fetch : String → Except String (List VEvent)) (targetDay : Int)
        (cal : CalendarRef) (url msg : String),
        cal.url = some url → fetch url = .error msg →
        aggOne fetch targetDay cal =
          [{ error := some msg, uid := "", endMs := none, propertyId := cal.propertyId
             propertyName := cal.propertyName, platform := cal.platform }]) := by
  refine ⟨?_, ?_, ?_, ?_⟩
  · intro fetch url msg h
    simp [fetchEvents, h]
  · intro fetch targetDay cal cals
    simp [aggregateEvents]
  · intro fetchA fetchB targetDay cal h
    cases hu : cal.url with
    | none => simp [aggOne, hu]
    | some u => simp [aggOne, hu, h u hu]
  · intro fetch targetDay cal url msg hu h
    simp [aggOne, hu, h]

/-- A fetch environment in which one URL fails and another succeeds. -/
def fetchW : String → Except String (List VEvent) := fun u =>
  if u = "https://bad" then .error "boom" else .ok [evC2]

/-- A calendar whose fetch fails. -/
def calBad : CalendarRef :=
  { url := some "https://bad", propertyId := 2, propertyName := "Casa B", platform := "booking" }

/-- Witness for C8 at a concrete failing fetch environment. -/
theorem C8_calendar_fault_isolation_witness :
    fetchEvents fetchW (some "https://bad") = [] ∧
    (∀ (cals : List CalendarRef),
      aggregateEvents fetchW day20241123 (calBad :: cals) =
        aggOne fetchW day20241123 calBad ++ aggregateEvents fetchW day20241123 cals) ∧
    aggOne fetchW day20241123 calBad =
      [{ error := some "boom", uid := "", endMs := none, propertyId := 2
         propertyName := "Casa B", platform := "booking" }] :=
  ⟨C8_calendar_fault_isolation.1 fetchW "https://bad" "boom" rfl,
   fun cals => C8_calendar_fault_isolation.2.1 fetchW day20241123 calBad cals,
   C8_calendar_fault_isolation.2.2.2 fetchW day20241123 calBad "https://bad" "boom" rfl rfl⟩

/-! ## Data model of the sync-and-notify pipeline

The rows and operations below embed the Prisma usage of
services/scheduler.service.js, services/notification.service.js and the
queue service (`syncPropertyCalendar`, `addNotificationJob` in its
synchronous fallback mode, which the queue service uses whenever Redis is
not configured). -/

/-- A property row as read by the scheduler and by the queue sync. -/
structure PropertyC where
  id : Nat
  name : String
  employeeName : String
  employeePhone : Option String
  checkoutTime : Option String
  isActive : Bool
  icalAirbnb : Option String
  icalBooking : Option String
  icalOther : Option String
deriving DecidableEq

/-- The static configuration: the property table (read-only to the
pipeline). -/
structure Config where
  properties : List PropertyC
deriving DecidableEq

/-- A ProcessedEvent row.  The scheduler writes rows carrying an event date
and an event type against the composite unique key
(propertyId, eventUid, eventDate, eventType); the webhook sync generation
of the schema keys rows by eventUid alone and stores no date or type, which
the optional fields accommodate. -/
structure PE where
  propertyId : Nat
  eventUid : String
  eventDay : Option Int
  eventType : Option String
deriving DecidableEq

/-- A dispatch audit row as created by `logNotification`
(services/notification.service.js) after every send attempt: the spec's
MessageLog. -/
structure MsgLog where
  typ : String
  channel : String
  recipient : Option String
  message : String
  status : String
deriving DecidableEq

/-- A reservation row as created by the queue sync. -/
structure Reservation where
  propertyId : Nat
  externalId : String
  checkinMs : Int
  checkoutMs : Int
  source : String
  status : String
deriving DecidableEq

/-- The mutable database state seen by the pipeline. -/
structure Db where
  processedEvents : List PE
  messageLogs : List MsgLog
  reservations : List Reservation
deriving DecidableEq

/-- The empty database. -/
def emptyDb : Db := { processedEvents := [], messageLogs := [], reservations := [] }

/-! ## Calendar sync (queue service `syncPropertyCalendar`) -/

/-- The (url, source) pairs of a property, in the order the sync visits
them. -/
def icalSources (p : PropertyC) : List (String × String) :=
  (match p.icalAirbnb with | some u => [(u, "airbnb")] | none => []) ++
    (match p.icalBooking with | some u => [(u, "booking")] | none => []) ++
    (match p.icalOther with | some u => [(u, "other")] | none => [])

/-- Whether a reservation imported from (property, event uid, source)
already exists: the `reservation.findFirst` guard of the queue sync. -/
def resHas (db : Db) (pid : Nat) (uid : String) (src : String) : Bool :=
  db.reservations.any (fun r =>
    r.propertyId == pid && r.externalId == uid && r.source == src)

/-- One event of one source inside `syncPropertyCalendar`: events missing a
start or an end are skipped; otherwise a reservation is created unless one
with the same (propertyId, externalId, source) already exists. -/
def syncEventStep (pid : Nat) (src : String) (db : Db) (e : VEvent) : Db :=
  match e.startMs, e.endMs with
  | some sMs, some eMs =>
    if resHas db pid e.uid src then db
    else { db with reservations := db.reservations ++
      [{ propertyId := pid, externalId := e.uid, checkinMs := sMs, checkoutMs := eMs
         source := src, status := "confirmed" }] }
  | _, _ => db

/-- One source of one property inside `syncPropertyCalendar`; `fetchEvents`
already converts any fetch or parse failure into an empty event list. -/
def syncSource (fetch : String → Except String (List VEvent)) (pid : Nat)
    (us : String × String) (db : Db) : Db :=
  (fetchEvents fetch (some us.1)).foldl (syncEventStep pid us.2) db

/-- Embedding of the queue service's `syncPropertyCalendar` for one
property. -/
def syncPropertyCalendar (fetch : String → Except String (List VEvent))
    (p : PropertyC) (db : Db) : Db :=
  (icalSources p).foldl (fun d us => syncSource fetch p.id us d) db

/-- Embedding of the scheduler's `syncAllCalendars`: every active property
with at least one calendar URL is synced; a failure for one property is
caught and the loop continues (in the model a failed fetch already
contributes nothing). -/
def syncAllCalendars (fetch : String → Except String (List VEvent))
    (cfg : Config) (db : Db) : Db :=
  (cfg.properties.filter (fun p => p.isActive && !(icalSources p).isEmpty)).foldl
    (fun d p => syncPropertyCalendar fetch p d) db

/-! ## Cleaning notifications (scheduler `sendCleaningNotifications`) -/

/-- The properties the scheduler's query returns: active properties having
at least one confirmed reservation whose checkout falls on the target local
day. -/
def propsWithCheckoutToday (cfg : Config) (today : Int) (db : Db) : List PropertyC :=
  cfg.properties.filter (fun p =>
    p.isActive && db.reservations.any (fun r =>
      r.propertyId == p.id && r.status == "confirmed" &&
        decide (localDay r.checkoutMs = today)))

/-- A checkout work item as pushed into the per-employee map. -/
structure Checkout where
  propertyId : Nat
  propertyName : String
  checkoutTime : String
deriving DecidableEq

/-- A per-employee group: the employee name of the first property seen for
the phone, and that phone's checkouts in encounter order. -/
structure CleanGroup where
  employeeName : String
  checkouts : List Checkout
deriving DecidableEq

/-- The checkout pushed for one property
(`checkoutTime: property.checkoutTime || '11:00'`). -/
def toCheckout (p : PropertyC) : Checkout :=
  { propertyId := p.id, propertyName := p.name, checkoutTime := p.checkoutTime.getD "11:00" }

/-- Insertion into the per-phone map, preserving JavaScript `Map` insertion
order: an existing key has the checkout appended to its group, a new key is
appended at the end. -/
def groupUpsert : List (String × CleanGroup) → String → String → Checkout →
    List (String × CleanGroup)
  | [], ph, en, c => [(ph, { employeeName := en, checkouts := [c] })]
  | (ph0, g) :: t, ph, en, c =>
    if ph0 == ph then (ph0, { g with checkouts := g.checkouts ++ [c] }) :: t
    else (ph0, g) :: groupUpsert t ph en c

/-- Embedding of the `byEmployee` grouping loop: properties without an
employee phone are skipped. -/
def byEmployee (props : List PropertyC) : List (String × CleanGroup) :=
  props.foldl
    (fun acc p =>
      match p.employeePhone with
      | none => acc
      | some ph => groupUpsert acc ph p.employeeName (toCheckout p))
    []

/-- The `processedEvent.findFirst` pre-check of the cleaning run: any
checkout-type ProcessedEvent row for the given property dated today,
whatever its eventUid. -/
def alreadySentCheck (db : Db) (pid : Nat) (today : Int) : Bool :=
  db.processedEvents.any (fun pe =>
    pe.propertyId == pid && pe.eventDay == some today && pe.eventType == some "checkout")

/-- The synthetic eventUid the cleaning run writes:
`cleaning-` followed by the target date. -/
def dayUid (today : Int) : String := "cleaning-" ++ toString today

/-- Whether a row matches the composite unique key used by the scheduler's
upsert. -/
def peKeyEq (pe : PE) (pid : Nat) (uid : String) (day : Int) : Bool :=
  pe.propertyId == pid && pe.eventUid == uid && pe.eventDay == some day &&
    pe.eventType == some "checkout"

/-- Embedding of `processedEvent.upsert` against the composite unique key
with an empty update clause: a conflicting row leaves the table unchanged,
otherwise the row is inserted. -/
def upsertPE (db : Db) (pid : Nat) (uid : String) (day : Int) : Db :=
  if db.processedEvents.any (fun pe => peKeyEq pe pid uid day) then db
  else { db with processedEvents := db.processedEvents ++
    [{ propertyId := pid, eventUid := uid, eventDay := some day, eventType := some "checkout" }] }

/-- The marking loop of the cleaning run: one upsert per checkout of the
group, all with the synthetic uid. -/
def markAll (today : Int) (cos : List Checkout) (db : Db) : Db :=
  cos.foldl (fun d c => upsertPE d c.propertyId (dayUid today) today) db

/-- `property.findUnique` by id, as `processCleaningNotification` performs
it. -/
def findProperty (cfg : Config) (pid : Nat) : Option PropertyC :=
  cfg.properties.find? (fun p => p.id == pid)

/-- The built-in fallback message of `sendCleaningNotification`
(services/notification.service.js), used when no custom template row
exists: a short sentence for exactly one checkout, a bulleted list naming
every checkout otherwise. -/
def cleaningFallbackMessage (employeeName propertyName checkoutTime : String)
    (checkouts : List Checkout) : String :=
  if checkouts.length == 1 then
    "Olá " ++ employeeName ++ "! 🧹\n\nHoje tem limpeza no " ++ propertyName ++
      " às " ++ checkoutTime ++ ".\n\nBom trabalho! 💪"
  else
    "Olá " ++ employeeName ++ "! 🧹\n\nHoje você tem " ++ toString checkouts.length ++
      " limpezas:\n\n" ++
      String.intercalate "\n"
        (checkouts.map (fun c => "• " ++ c.propertyName ++ " às " ++ c.checkoutTime)) ++
      "\n\nBom trabalho! 💪"

/-- The observable outcome of one cleaning run: the database plus the
number of dispatch attempts made and the `sent` counter returned by the
job. -/
structure RunState where
  db : Db
  attempts : Nat
  sent : Nat
deriving DecidableEq

/-- The outcome `send` reports for one dispatch attempt: with a phone
present, one attempt is made and its status is `sent` or `failed` by the
provider result; with no phone the inner send throws before reaching the
provider and `send` records a failure without an attempt. -/
def sendOutcome (sendOk : String → Bool) (phone : Option String) : String × Nat :=
  match phone with
  | some p => (if sendOk p then "sent" else "failed", 1)
  | none => ("failed", 0)

/-- One iteration of the per-employee loop of `sendCleaningNotifications`,
with the queue in its synchronous fallback mode so that
`addNotificationJob('cleaning', ...)` runs `processCleaningNotification`
and thus `sendCleaningNotification` and `send` inline.  In order: the
already-notified pre-check on the first checkout's property; the property
lookup (whose failure is caught by the per-employee try/catch, skipping the
marking); the dispatch, which `send` wraps so that a provider failure is
recorded as a failed MessageLog row and returned as `success: false`
rather than thrown; then the marking loop and the `sent` counter, which
therefore run for failed sends as well. -/
def processGroup (cfg : Config) (today : Int) (sendOk : String → Bool)
    (st : RunState) (g : String × CleanGroup) : RunState :=
  match g.2.checkouts with
  | [] => st
  | c0 :: rest =>
    if alreadySentCheck st.db c0.propertyId today then st
    else
      match findProperty cfg c0.propertyId with
      | none => st
      | some prop =>
        let msg := cleaningFallbackMessage prop.employeeName prop.name c0.checkoutTime
          (c0 :: rest)
        let outcome := sendOutcome sendOk prop.employeePhone
        let db1 := { st.db with messageLogs := st.db.messageLogs ++
          [{ typ := "cleaning", channel := "whatsapp", recipient := prop.employeePhone
             message := msg, status := outcome.1 }] }
        { db := markAll today (c0 :: rest) db1
          attempts := st.attempts + outcome.2
          sent := st.sent + 1 }

/-- Embedding of `sendCleaningNotifications`
(services/scheduler.service.js): if the WhatsApp status is not
`connected` the run returns immediately with `sent: 0`, touching nothing;
otherwise the properties with a confirmed checkout today are grouped by
employee phone and processed in order. -/
def sendCleaningNotifications (cfg : Config) (connected : Bool) (today : Int)
    (sendOk : String → Bool) (db : Db) : RunState :=
  if connected then
    (byEmployee (propsWithCheckoutToday cfg today db)).foldl
      (processGroup cfg today sendOk) { db := db, attempts := 0, sent := 0 }
  else { db := db, attempts := 0, sent := 0 }

/-- The full calendar-sync-and-notify pipeline for one day: the
`calendar-sync` job body (`syncAllCalendars`, which imports reservations
through the queue sync) followed by the `cleaning-notifications` job body. -/
def runPipeline (cfg : Config) (fetch : String → Except String (List VEvent))
    (today : Int) (sendOk : String → Bool) (db : Db) : Db :=
  (sendCleaningNotifications cfg true today sendOk (syncAllCalendars fetch cfg db)).db

/-! ## Webhook sync marking (webhook.service.js syncProperty) -/

/-- A ProcessedEvent row as the webhook sync generation of the schema
stores it: keyed by eventUid alone, with the source platform. -/
structure WebhookPE where
  eventUid : String
  propertyId : Nat
  source : String
deriving DecidableEq

/-- The `processedEvent.findUnique({ where: { eventUid } })` check of
`syncProperty`. -/
def webhookFindProcessed (rows : List WebhookPE) (uid : String) : Bool :=
  rows.any (fun r => r.eventUid == uid)

/-- The `processedEvent.create` of `syncProperty`: a plain insert, which
the unique constraint on eventUid rejects with an error when a row with
that uid already exists. -/
def webhookCreateProcessed (rows : List WebhookPE) (row : WebhookPE) :
    Except String (List WebhookPE) :=
  if rows.any (fun r => r.eventUid == row.eventUid) then
    .error "Unique constraint failed on eventUid"
  else .ok (rows ++ [row])

/-- The marking step of `syncProperty` for one event as it actually
executes: the findUnique check observes the table at one moment
(`rowsAtCheck`) and the create runs against the table at a possibly later
moment (`rowsAtCreate`), since each is a separate awaited database
round-trip and another execution may insert in between.  The result is the
final table plus the `results.errors` entries the per-event catch pushes. -/
def syncPropertyMark (rowsAtCheck rowsAtCreate : List WebhookPE) (row : WebhookPE) :
    List WebhookPE × List String :=
  if webhookFindProcessed rowsAtCheck row.eventUid then
    (rowsAtCreate, [])
  else
    match webhookCreateProcessed rowsAtCreate row with
    | .ok rows => (rows, [])
    | .error msg => (rowsAtCreate, [msg])

/-! ## The express entrypoint's buildMessage -/

/-- A cleaning task as `groupTasksByRecipient` builds it. -/
structure TaskT where
  propertyName : String
  platform : String
  checkoutTime : String
deriving DecidableEq

/-- Embedding of `buildMessage` (the express scheduler entrypoint): zero
tasks yield a no-cleanings sentence; any positive number of tasks yields a
header followed by one numbered line per task, joined with newlines. -/
def buildMessage (recipientName : String) (dateLabel : String) (tasks : List TaskT) :
    String :=
  if tasks.isEmpty then
    "Bom dia " ++ recipientName ++ "! Hoje (" ++ dateLabel ++ ") não há limpezas programadas."
  else
    let header := "Bom dia " ++ recipientName ++ "! Hoje (" ++ dateLabel ++ ") temos " ++
      toString tasks.length ++ " limpeza" ++ (if tasks.length > 1 then "s" else "") ++ ":"
    let taskLines := tasks.enum.map (fun ic =>
      toString (ic.1 + 1) ++ ". " ++ ic.2.propertyName ++ " (" ++ ic.2.platform ++
        ") checkout às " ++ ic.2.checkoutTime ++ "h")
    String.intercalate "\n" (header :: taskLines)

/-! ## Scheduler job execution (addJob, runJob)

`addJob` registers a node-cron task whose callback immediately awaits the
job handler inside a try/catch; `runJob` dispatches a known job name
directly to the same handler.  Neither entry point consults any
in-progress flag before starting the handler, and node-cron fires the
callback on every tick regardless of earlier invocations still running, so
each firing unconditionally starts a new concurrent execution.  The step
relation below records exactly these transitions over the multiset of
in-flight executions. -/

/-- The job names registered by `start()`. -/
def jobNames : List String :=
  ["calendar-sync", "checkin-reminders", "checkout-reminders", "cleaning-notifications",
   "review-requests", "cleanup", "daily-summary"]

/-- The in-flight executions of the process, by job name. -/
structure SchedState where
  inFlight : List String
deriving DecidableEq

/-- Transitions of the scheduler process: a cron tick of a registered job
starts an execution, a manual `runJob` of a registered job starts an
execution, and a running execution may finish.  No transition inspects
`inFlight` before starting. -/
inductive SchedStep : SchedState → SchedState → Prop
  | cronFire (s : SchedState) (name : String) (h : name ∈ jobNames) :
      SchedStep s ⟨name :: s.inFlight⟩
  | manualRun (s : SchedState) (name : String) (h : name ∈ jobNames) :
      SchedStep s ⟨name :: s.inFlight⟩
  | finish (s : SchedState) (name : String) (pre post : List String)
      (h : s.inFlight = pre ++ name :: post) :
      SchedStep s ⟨pre ++ post⟩

/-- States reachable from the idle process. -/
inductive SchedReachable : SchedState → Prop
  | init : SchedReachable ⟨[]⟩
  | step {s t : SchedState} : SchedReachable s → SchedStep s t → SchedReachable t

/-! ## Claim C6: fail-fast on a disconnected channel -/

/-- C6.  Fail-fast on a disconnected channel: when the WhatsApp status is
not connected at the start of the cleaning-notification run, the run
returns immediately: the database is untouched (in particular zero
MessageLog rows are created) and zero dispatch attempts are made. -/
theorem C6_fail_fast_disconnected (cfg : Config) (today : Int)
    (sendOk : String → Bool) (db : Db) :
    sendCleaningNotifications cfg false today sendOk db =
      { db := db, attempts := 0, sent := 0 } := rfl

/-! ## Claim C9: single-flight per job name -/

/-- C9 counterexample.  A state with two concurrent in-flight executions of
the job `cleaning-notifications` is reachable: a cron firing starts one
execution and a manual `runJob` issued while it is still running starts a
second, since neither `addJob`'s cron callback nor `runJob` consults any
single-flight guard. -/
theorem C9_counterexample :
    SchedReachable ⟨["cleaning-notifications", "cleaning-notifications"]⟩ ∧
    (["cleaning-notifications", "cleaning-notifications"] : List String).count
      "cleaning-notifications" = 2 :=
  ⟨SchedReachable.step
      (SchedReachable.step SchedReachable.init
        (SchedStep.cronFire ⟨[]⟩ "cleaning-notifications" (by decide)))
      (SchedStep.manualRun ⟨["cleaning-notifications"]⟩ "cleaning-notifications" (by decide)),
   by decide⟩

/-- C9 amended.  The scheduler has no single-flight guard: from any state,
a firing of a registered job — including a manual `runJob` issued while the
same job is already in flight — starts a further concurrent execution
rather than being rejected or skipped, yielding at least two in-flight
executions of that name. -/
theorem C9_amended (s : SchedState) (name : String) (h1 : name ∈ jobNames)
    (h2 : name ∈ s.inFlight) :
    SchedStep s ⟨name :: s.inFlight⟩ ∧ 2 ≤ (name :: s.inFlight).count name := by
  refine ⟨SchedStep.manualRun s name h1, ?_⟩
  have hpos : 0 < s.inFlight.count name := List.count_pos_iff.mpr h2
  rw [List.count_cons_self]
  omega

/-- Witness for C9 amended: a manual run of `cleaning-notifications` fired
while one execution is already in flight yields two concurrent
executions. -/
theorem C9_amended_witness :
    SchedStep ⟨["cleaning-notifications"]⟩
      ⟨["cleaning-notifications", "cleaning-notifications"]⟩ ∧
    2 ≤ (["cleaning-notifications", "cleaning-notifications"] : List String).count
      "cleaning-notifications" :=
  C9_amended ⟨["cleaning-notifications"]⟩ "cleaning-notifications" (by decide) (by decide)

/-! ## Claim C4: atomicity of the deduplication-ledger insert -/

/-- A webhook ProcessedEvent row used in the concrete race. -/
def wRow : WebhookPE := { eventUid := "uid-ab1", propertyId := 7, source := "airbnb" }

/-- C4 counterexample.  The marking of `syncProperty` is a `findUnique`
check followed by a separate `create`: when a concurrent execution inserts
the row between the two round-trips (table empty at the check, containing
the row at the create), the create's unique-constraint conflict is caught
by the per-event handler and recorded in `results.errors` — the conflict is
surfaced as an error for that event, not treated as a silent
"skip, already handled". -/
theorem C4_counterexample :
    syncPropertyMark [] [wRow] wRow =
      ([wRow], ["Unique constraint failed on eventUid"]) := rfl

/-- C4 amended.  The scheduler's marking (`processedEvent.upsert` with an
empty update clause against the composite unique key) is an atomic
insert-if-absent whose conflict is a no-op skip and never an error; the
webhook sync's marking, by contrast, is a separate check followed by an
insert: a row present at the check skips the insert, but a row inserted
concurrently between check and insert makes the create's conflict surface
as an error entry for that event. -/
theorem C4_amended :
    (∀ (db : Db) (pid : Nat) (uid : String) (day : Int),
        (db.processedEvents.any (fun pe => peKeyEq pe pid uid day) = true →
          upsertPE db pid uid day = db) ∧
        (db.processedEvents.any (fun pe => peKeyEq pe pid uid day) = false →
          (upsertPE db pid uid day).processedEvents = db.processedEvents ++
            [{ propertyId := pid, eventUid := uid, eventDay := some day
               eventType := some "checkout" }])) ∧
    (∀ (rowsAtCheck rowsAtCreate : List WebhookPE) (row : WebhookPE),
        (webhookFindProcessed rowsAtCheck row.eventUid = true →
          syncPropertyMark rowsAtCheck rowsAtCreate row = (rowsAtCreate, [])) ∧
        (webhookFindProcessed rowsAtCheck row.eventUid = false →
          webhookFindProcessed rowsAtCreate row.eventUid = true →
          syncPropertyMark rowsAtCheck rowsAtCreate row =
            (rowsAtCreate, ["Unique constraint failed on eventUid"]))) := by
  constructor
  · intro db pid uid day
    constructor
    · intro h; simp [upsertPE, h]
    · intro h; simp [upsertPE, h]
  · intro rowsAtCheck rowsAtCreate row
    constructor
    · intro h; simp [syncPropertyMark, h]
    · intro h1 h2
      simp only [webhookFindProcessed] at h2
      simp [syncPropertyMark, h1, webhookCreateProcessed, h2]

/-- Witness for C4 amended at concrete tables: a conflicting upsert is a
no-op, an absent key is inserted, and the webhook race records the
conflict as an error. -/
theorem C4_amended_witness :
    (upsertPE { emptyDb with processedEvents :=
        [{ propertyId := 7, eventUid := "uid-ab1", eventDay := some 20050
           eventType := some "checkout" }] } 7 "uid-ab1" 20050 =
      { emptyDb with processedEvents :=
        [{ propertyId := 7, eventUid := "uid-ab1", eventDay := some 20050
           eventType := some "checkout" }] }) ∧
    ((upsertPE emptyDb 7 "uid-ab1" 20050).processedEvents = [] ++
      [{ propertyId := 7, eventUid := "uid-ab1", eventDay := some 20050
         eventType := some "checkout" }]) ∧
    syncPropertyMark [wRow] [wRow] wRow = ([wRow], []) ∧
    syncPropertyMark [] [wRow] wRow = ([wRow], ["Unique constraint failed on eventUid"]) :=
  ⟨(C4_amended.1 _ 7 "uid-ab1" 20050).1 (by decide),
   (C4_amended.1 emptyDb 7 "uid-ab1" 20050).2 (by decide),
   (C4_amended.2 [wRow] [wRow] wRow).1 (by decide),
   (C4_amended.2 [] [wRow] wRow).2 (by decide) (by decide)⟩

/-! ## Structural lemmas about the cleaning run -/

/-- Observable log count: the sent cleaning messages addressed to a phone. -/
def countCleaningSent (db : Db) (ph : String) : Nat :=
  (db.messageLogs.filter (fun l =>
    l.typ == "cleaning" && l.recipient == some ph && l.status == "sent")).length

/-- Observable ledger count: the ProcessedEvent rows matching a composite
key. -/
def countPEKey (db : Db) (pid : Nat) (uid : String) (day : Int) : Nat :=
  (db.processedEvents.filter (fun pe => peKeyEq pe pid uid day)).length

theorem any_append_left {α : Type} (l ext : List α) (p : α → Bool) (h : l.any p = true) :
    (l ++ ext).any p = true := by
  simp only [List.any_append, Bool.or_eq_true]
  exact Or.inl h

theorem upsertPE_shape (db : Db) (pid : Nat) (uid : String) (day : Int) :
    ∃ ext, (upsertPE db pid uid day).processedEvents = db.processedEvents ++ ext ∧
      (∀ pe ∈ ext, pe = { propertyId := pid, eventUid := uid, eventDay := some day
                          eventType := some "checkout" }) ∧
      (upsertPE db pid uid day).messageLogs = db.messageLogs ∧
      (upsertPE db pid uid day).reservations = db.reservations := by
  unfold upsertPE
  split
  · exact ⟨[], by simp, by simp, rfl, rfl⟩
  · refine ⟨[(⟨pid, uid, some day, some "checkout"⟩ : PE)], rfl, ?_, rfl, rfl⟩
    intro pe hpe
    simpa using hpe

theorem upsertPE_key_present (db : Db) (pid : Nat) (uid : String) (day : Int) :
    (upsertPE db pid uid day).processedEvents.any
      (fun pe => peKeyEq pe pid uid day) = true := by
  unfold upsertPE
  split
  · assumption
  · simp [List.any_append, peKeyEq]

theorem markAll_cons (today : Int) (c : Checkout) (tl : List Checkout) (db : Db) :
    markAll today (c :: tl) db =
      markAll today tl (upsertPE db c.propertyId (dayUid today) today) := rfl

theorem markAll_shape (today : Int) (cos : List Checkout) (db : Db) :
    ∃ ext, (markAll today cos db).processedEvents = db.processedEvents ++ ext ∧
      (∀ pe ∈ ext, pe.eventUid = dayUid today ∧ pe.eventDay = some today ∧
        pe.eventType = some "checkout" ∧ pe.propertyId ∈ cos.map Checkout.propertyId) ∧
      (markAll today cos db).messageLogs = db.messageLogs ∧
      (markAll today cos db).reservations = db.reservations := by
  induction cos generalizing db with
  | nil => exact ⟨[], by simp [markAll]⟩
  | cons c tl ih =>
    obtain ⟨e1, he1, hr1, hl1, hres1⟩ := upsertPE_shape db c.propertyId (dayUid today) today
    obtain ⟨e2, he2, hr2, hl2, hres2⟩ := ih (upsertPE db c.propertyId (dayUid today) today)
    rw [markAll_cons]
    refine ⟨e1 ++ e2, ?_, ?_, ?_, ?_⟩
    · rw [he2, he1, List.append_assoc]
    · intro pe hpe
      rcases List.mem_append.mp hpe with h | h
      · have := hr1 pe h
        subst this
        simp
      · have := hr2 pe h
        refine ⟨this.1, this.2.1, this.2.2.1, ?_⟩
        simp only [List.map_cons, List.mem_cons]
        exact Or.inr this.2.2.2
    · rw [hl2, hl1]
    · rw [hres2, hres1]


theorem alreadySentCheck_of_key (db : Db) (pid : Nat) (uid : String) (day : Int)
    (h : db.processedEvents.any (fun pe => peKeyEq pe pid uid day) = true) :
    alreadySentCheck db pid day = true := by
  unfold alreadySentCheck
  simp only [List.any_eq_true] at h ⊢
  obtain ⟨pe, hmem, hkey⟩ := h
  simp only [peKeyEq, Bool.and_eq_true] at hkey
  exact ⟨pe, hmem, by simp [hkey.1.1.1, hkey.1.2, hkey.2]⟩

theorem not_key_of_not_alreadySentCheck (db : Db) (pid : Nat) (uid : String) (day : Int)
    (h : alreadySentCheck db pid day = false) :
    db.processedEvents.any (fun pe => peKeyEq pe pid uid day) = false := by
  cases hk : db.processedEvents.any (fun pe => peKeyEq pe pid uid day) with
  | false => rfl
  | true => rw [alreadySentCheck_of_key db pid uid day hk] at h; exact h.symm ▸ rfl

theorem alreadySentCheck_append_true (db db2 : Db) (pid : Nat) (day : Int)
    (ext : List PE) (h2 : db2.processedEvents = db.processedEvents ++ ext)
    (h : alreadySentCheck db pid day = true) : alreadySentCheck db2 pid day = true := by
  unfold alreadySentCheck at h ⊢
  rw [h2]
  exact any_append_left _ _ _ h

theorem alreadySentCheck_append_false (db db2 : Db) (pid : Nat) (day : Int)
    (ext : List PE) (h2 : db2.processedEvents = db.processedEvents ++ ext)
    (hext : ∀ pe ∈ ext, pe.propertyId ≠ pid)
    (h : alreadySentCheck db pid day = false) : alreadySentCheck db2 pid day = false := by
  unfold alreadySentCheck at h ⊢
  rw [h2]
  simp only [List.any_append, Bool.or_eq_false_iff]
  refine ⟨h, ?_⟩
  simp only [List.any_eq_false]
  intro pe hpe hcontra
  simp only [Bool.and_eq_true, beq_iff_eq] at hcontra
  exact hext pe hpe hcontra.1.1

theorem markAll_key_present (today : Int) (cos : List Checkout) :
    ∀ (db : Db) (c : Checkout), c ∈ cos →
    (markAll today cos db).processedEvents.any
      (fun pe => peKeyEq pe c.propertyId (dayUid today) today) = true := by
  induction cos with
  | nil => intro db c hc; cases hc
  | cons c0 tl ih =>
    intro db c hc
    rw [markAll_cons]
    rcases List.mem_cons.mp hc with h | h
    · subst h
      obtain ⟨ext, hext, -, -, -⟩ :=
        markAll_shape today tl (upsertPE db c.propertyId (dayUid today) today)
      rw [hext]
      exact any_append_left _ _ _ (upsertPE_key_present db c.propertyId (dayUid today) today)
    · exact ih _ c h

theorem countPEKey_append (db db2 : Db) (ext : List PE) (pid : Nat) (uid : String)
    (day : Int) (h2 : db2.processedEvents = db.processedEvents ++ ext) :
    countPEKey db2 pid uid day = countPEKey db pid uid day +
      (ext.filter (fun pe => peKeyEq pe pid uid day)).length := by
  unfold countPEKey
  rw [h2, List.filter_append, List.length_append]

theorem markAll_countPEKey (today : Int) (cos : List Checkout) (db : Db)
    (hnodup : (cos.map Checkout.propertyId).Nodup)
    (hclean : ∀ c ∈ cos, alreadySentCheck db c.propertyId today = false) :
    ∀ pid, countPEKey (markAll today cos db) pid (dayUid today) today =
      countPEKey db pid (dayUid today) today +
        (if pid ∈ cos.map Checkout.propertyId then 1 else 0) := by
  induction cos generalizing db with
  | nil => intro pid; simp [markAll]
  | cons c0 tl ih =>
    intro pid
    rw [markAll_cons]
    have hins : (upsertPE db c0.propertyId (dayUid today) today).processedEvents =
        db.processedEvents ++ [(⟨c0.propertyId, dayUid today, some today, some "checkout"⟩ : PE)] := by
      unfold upsertPE
      rw [not_key_of_not_alreadySentCheck db c0.propertyId (dayUid today) today
        (hclean c0 (List.mem_cons_self c0 tl))]
      rfl
    have hpe1 : ∀ pid2, countPEKey (upsertPE db c0.propertyId (dayUid today) today)
        pid2 (dayUid today) today = countPEKey db pid2 (dayUid today) today +
          (if pid2 = c0.propertyId then 1 else 0) := by
      intro pid2
      rw [countPEKey_append db _ _ pid2 (dayUid today) today hins]
      congr 1
      by_cases hp : pid2 = c0.propertyId
      · subst hp; simp [peKeyEq]
      · simp [peKeyEq, hp]
        intro hcontra
        exact absurd hcontra.symm hp
    have hnodup2 : (tl.map Checkout.propertyId).Nodup := (List.nodup_cons.mp hnodup).2
    have hnotin : c0.propertyId ∉ tl.map Checkout.propertyId := (List.nodup_cons.mp hnodup).1
    have hclean2 : ∀ c ∈ tl, alreadySentCheck
        (upsertPE db c0.propertyId (dayUid today) today) c.propertyId today = false := by
      intro c hc
      refine alreadySentCheck_append_false db _ c.propertyId today _ hins ?_
        (hclean c (List.mem_cons_of_mem c0 hc))
      intro pe hpe
      simp only [List.mem_singleton] at hpe
      subst hpe
      intro hcontra
      have hceq : c0.propertyId = c.propertyId := by simpa using hcontra
      exact hnotin (hceq ▸ List.mem_map_of_mem Checkout.propertyId hc)
    rw [ih _ hnodup2 hclean2 pid, hpe1 pid]
    by_cases hp : pid = c0.propertyId
    · subst hp
      simp [hnotin]
    · by_cases ht : pid ∈ tl.map Checkout.propertyId <;>
        simp [hp, ht, List.mem_cons]

theorem processGroup_eq_of_empty (cfg : Config) (today : Int) (sOk : String → Bool)
    (st : RunState) (ph : String) (g : CleanGroup) (hg : g.checkouts = []) :
    processGroup cfg today sOk st (ph, g) = st := by
  unfold processGroup
  rw [hg]

theorem processGroup_eq_of_skip (cfg : Config) (today : Int) (sOk : String → Bool)
    (st : RunState) (ph : String) (g : CleanGroup) (c0 : Checkout) (rest : List Checkout)
    (hg : g.checkouts = c0 :: rest)
    (hpre : alreadySentCheck st.db c0.propertyId today = true) :
    processGroup cfg today sOk st (ph, g) = st := by
  unfold processGroup
  rw [hg]
  simp [hpre]

theorem processGroup_eq_of_nofp (cfg : Config) (today : Int) (sOk : String → Bool)
    (st : RunState) (ph : String) (g : CleanGroup) (c0 : Checkout) (rest : List Checkout)
    (hg : g.checkouts = c0 :: rest)
    (hpre : alreadySentCheck st.db c0.propertyId today = false)
    (hfp : findProperty cfg c0.propertyId = none) :
    processGroup cfg today sOk st (ph, g) = st := by
  unfold processGroup
  rw [hg]
  simp [hpre, hfp]

theorem processGroup_eq_of_run (cfg : Config) (today : Int) (sOk : String → Bool)
    (st : RunState) (ph : String) (g : CleanGroup) (c0 : Checkout) (rest : List Checkout)
    (prop : PropertyC) (hg : g.checkouts = c0 :: rest)
    (hpre : alreadySentCheck st.db c0.propertyId today = false)
    (hfp : findProperty cfg c0.propertyId = some prop) :
    processGroup cfg today sOk st (ph, g) =
      { db := markAll today (c0 :: rest)
          { st.db with messageLogs := st.db.messageLogs ++
            [(⟨"cleaning", "whatsapp", prop.employeePhone,
              cleaningFallbackMessage prop.employeeName prop.name c0.checkoutTime (c0 :: rest),
              (sendOutcome sOk prop.employeePhone).1⟩ : MsgLog)] },
        attempts := st.attempts + (sendOutcome sOk prop.employeePhone).2,
        sent := st.sent + 1 } := by
  unfold processGroup
  rw [hg]
  simp [hpre, hfp]

theorem processGroup_shape (cfg : Config) (today : Int) (sOk : String → Bool)
    (st : RunState) (g : String × CleanGroup) :
    ∃ extPE extLog,
      (processGroup cfg today sOk st g).db.processedEvents = st.db.processedEvents ++ extPE ∧
      (processGroup cfg today sOk st g).db.messageLogs = st.db.messageLogs ++ extLog ∧
      (processGroup cfg today sOk st g).db.reservations = st.db.reservations ∧
      (∀ pe ∈ extPE, pe.eventUid = dayUid today ∧ pe.eventDay = some today ∧
        pe.eventType = some "checkout" ∧
        pe.propertyId ∈ g.2.checkouts.map Checkout.propertyId) := by
  obtain ⟨ph, grp⟩ := g
  cases hg : grp.checkouts with
  | nil =>
    rw [processGroup_eq_of_empty cfg today sOk st ph grp hg]
    exact ⟨[], [], by simp, by simp, rfl, by simp⟩
  | cons c0 rest =>
    cases hpre : alreadySentCheck st.db c0.propertyId today with
    | true =>
      rw [processGroup_eq_of_skip cfg today sOk st ph grp c0 rest hg hpre]
      exact ⟨[], [], by simp, by simp, rfl, by simp⟩
    | false =>
      cases hfp : findProperty cfg c0.propertyId with
      | none =>
        rw [processGroup_eq_of_nofp cfg today sOk st ph grp c0 rest hg hpre hfp]
        exact ⟨[], [], by simp, by simp, rfl, by simp⟩
      | some prop =>
        rw [processGroup_eq_of_run cfg today sOk st ph grp c0 rest prop hg hpre hfp]
        obtain ⟨ext, hext, hrows, hlog, hres⟩ := markAll_shape today (c0 :: rest)
          { st.db with messageLogs := st.db.messageLogs ++
            [(⟨"cleaning", "whatsapp", prop.employeePhone,
              cleaningFallbackMessage prop.employeeName prop.name c0.checkoutTime (c0 :: rest),
              (sendOutcome sOk prop.employeePhone).1⟩ : MsgLog)] }
        refine ⟨ext, _, hext, by rw [hlog], by rw [hres], ?_⟩
        intro pe hpe
        exact hrows pe hpe

theorem foldPG_shape (cfg : Config) (today : Int) (sOk : String → Bool)
    (gs : List (String × CleanGroup)) :
    ∀ st : RunState, ∃ extPE extLog,
      ((gs.foldl (processGroup cfg today sOk) st).db.processedEvents =
        st.db.processedEvents ++ extPE) ∧
      ((gs.foldl (processGroup cfg today sOk) st).db.messageLogs =
        st.db.messageLogs ++ extLog) ∧
      ((gs.foldl (processGroup cfg today sOk) st).db.reservations = st.db.reservations) := by
  induction gs with
  | nil => intro st; exact ⟨[], [], by simp, by simp, rfl⟩
  | cons g0 tl ih =>
    intro st
    obtain ⟨e1, l1, he1, hl1, hr1, -⟩ := processGroup_shape cfg today sOk st g0
    obtain ⟨e2, l2, he2, hl2, hr2⟩ := ih (processGroup cfg today sOk st g0)
    refine ⟨e1 ++ e2, l1 ++ l2, ?_, ?_, ?_⟩
    · rw [List.foldl_cons, he2, he1, List.append_assoc]
    · rw [List.foldl_cons, hl2, hl1, List.append_assoc]
    · rw [List.foldl_cons, hr2, hr1]

/-- A group is neutral for a database state when the cleaning loop would
not process it there: empty checkouts, a hit on the already-notified
pre-check, or a missing property row. -/
def groupNeutral (cfg : Config) (today : Int) (db : Db) (g : String × CleanGroup) : Prop :=
  match g.2.checkouts with
  | [] => True
  | c0 :: _ =>
    alreadySentCheck db c0.propertyId today = true ∨ findProperty cfg c0.propertyId = none

theorem processGroup_of_neutral (cfg : Config) (today : Int) (sOk : String → Bool)
    (st : RunState) (g : String × CleanGroup) (h : groupNeutral cfg today st.db g) :
    processGroup cfg today sOk st g = st := by
  obtain ⟨ph, grp⟩ := g
  unfold groupNeutral at h
  cases hg : grp.checkouts with
  | nil => exact processGroup_eq_of_empty cfg today sOk st ph grp hg
  | cons c0 rest =>
    rw [hg] at h
    rcases h with h | h
    · exact processGroup_eq_of_skip cfg today sOk st ph grp c0 rest hg h
    · cases hpre : alreadySentCheck st.db c0.propertyId today with
      | true => exact processGroup_eq_of_skip cfg today sOk st ph grp c0 rest hg hpre
      | false => exact processGroup_eq_of_nofp cfg today sOk st ph grp c0 rest hg hpre h

theorem groupNeutral_mono (cfg : Config) (today : Int) (db db2 : Db) (ext : List PE)
    (h2 : db2.processedEvents = db.processedEvents ++ ext) (g : String × CleanGroup)
    (h : groupNeutral cfg today db g) : groupNeutral cfg today db2 g := by
  unfold groupNeutral at h ⊢
  cases hg : g.2.checkouts with
  | nil => trivial
  | cons c0 rest =>
    rw [hg] at h
    rcases h with h | h
    · exact Or.inl (alreadySentCheck_append_true db db2 c0.propertyId today ext h2 h)
    · exact Or.inr h

theorem foldPG_neutral_post (cfg : Config) (today : Int) (sOk : String → Bool)
    (gs : List (String × CleanGroup)) :
    ∀ (st : RunState) (g : String × CleanGroup), g ∈ gs →
      groupNeutral cfg today ((gs.foldl (processGroup cfg today sOk) st).db) g := by
  induction gs with
  | nil => intro st g hg; cases hg
  | cons g0 tl ih =>
    intro st g hg
    rw [List.foldl_cons]
    rcases List.mem_cons.mp hg with h | h
    · subst h
      obtain ⟨phg, grp⟩ := g
      obtain ⟨e2, l2, he2, hl2, hr2⟩ := foldPG_shape cfg today sOk tl
        (processGroup cfg today sOk st (phg, grp))
      cases hg0 : grp.checkouts with
      | nil => unfold groupNeutral; rw [hg0]; trivial
      | cons c0 rest =>
        cases hfp : findProperty cfg c0.propertyId with
        | none =>
          unfold groupNeutral
          rw [hg0]
          exact Or.inr hfp
        | some prop =>
          cases hpre : alreadySentCheck st.db c0.propertyId today with
          | true =>
            obtain ⟨e1, l1, he1, hl1, hr1, -⟩ :=
              processGroup_shape cfg today sOk st (phg, grp)
            unfold groupNeutral
            rw [hg0]
            refine Or.inl (alreadySentCheck_append_true _ _ _ _ (e1 ++ e2) ?_ hpre)
            rw [he2, he1, List.append_assoc]
          | false =>
            have hrun := processGroup_eq_of_run cfg today sOk st phg grp c0 rest prop
              hg0 hpre hfp
            have hkey : (processGroup cfg today sOk st (phg, grp)).db.processedEvents.any
                (fun pe => peKeyEq pe c0.propertyId (dayUid today) today) = true := by
              rw [hrun]
              exact markAll_key_present today (c0 :: rest) _ c0 (List.mem_cons_self c0 rest)
            have hsent := alreadySentCheck_of_key _ _ _ _ hkey
            unfold groupNeutral
            rw [hg0]
            exact Or.inl (alreadySentCheck_append_true _ _ _ _ e2 he2 hsent)
    · exact ih (processGroup cfg today sOk st g0) g h

theorem foldPG_of_all_neutral (cfg : Config) (today : Int) (sOk : String → Bool)
    (gs : List (String × CleanGroup)) :
    ∀ st : RunState, (∀ g ∈ gs, groupNeutral cfg today st.db g) →
      gs.foldl (processGroup cfg today sOk) st = st := by
  induction gs with
  | nil => intro st _; rfl
  | cons g0 tl ih =>
    intro st h
    rw [List.foldl_cons, processGroup_of_neutral cfg today sOk st g0
      (h g0 (List.mem_cons_self g0 tl))]
    exact ih st (fun g hg => h g (List.mem_cons_of_mem g0 hg))

/-! ## Structural lemmas about the calendar sync -/

theorem resHas_append (db db2 : Db) (ext : List Reservation)
    (h2 : db2.reservations = db.reservations ++ ext) (pid : Nat) (uid src : String)
    (h : resHas db pid uid src = true) : resHas db2 pid uid src = true := by
  unfold resHas at h ⊢
  rw [h2]
  exact any_append_left _ _ _ h

theorem syncEventStep_shape (pid : Nat) (src : String) (db : Db) (e : VEvent) :
    (syncEventStep pid src db e).processedEvents = db.processedEvents ∧
    (syncEventStep pid src db e).messageLogs = db.messageLogs ∧
    ∃ ext, (syncEventStep pid src db e).reservations = db.reservations ++ ext := by
  unfold syncEventStep
  cases hs : e.startMs with
  | none => exact ⟨rfl, rfl, [], by simp⟩
  | some sMs =>
    cases he : e.endMs with
    | none => exact ⟨rfl, rfl, [], by simp⟩
    | some eMs =>
      cases hres : resHas db pid e.uid src with
      | true => refine ⟨?_, ?_, [], ?_⟩ <;> simp [hres]
      | false =>
        refine ⟨?_, ?_,
          [(⟨pid, e.uid, sMs, eMs, src, "confirmed"⟩ : Reservation)], ?_⟩ <;> simp [hres]

theorem syncEventStep_ensures (pid : Nat) (src : String) (db : Db) (e : VEvent)
    (sMs eMs : Int) (hs : e.startMs = some sMs) (he : e.endMs = some eMs) :
    resHas (syncEventStep pid src db e) pid e.uid src = true := by
  unfold syncEventStep
  rw [hs, he]
  cases hres : resHas db pid e.uid src with
  | true => simp [hres]
  | false => simp [hres, resHas, List.any_append]

theorem syncEventStep_id_of_has (pid : Nat) (src : String) (db : Db) (e : VEvent)
    (h : ∀ sMs eMs, e.startMs = some sMs → e.endMs = some eMs →
      resHas db pid e.uid src = true) :
    syncEventStep pid src db e = db := by
  unfold syncEventStep
  cases hs : e.startMs with
  | none => rfl
  | some sMs =>
    cases he : e.endMs with
    | none => rfl
    | some eMs => simp [h sMs eMs hs he]

theorem foldSES_shape (pid : Nat) (src : String) (evs : List VEvent) :
    ∀ db : Db,
      (evs.foldl (syncEventStep pid src) db).processedEvents = db.processedEvents ∧
      (evs.foldl (syncEventStep pid src) db).messageLogs = db.messageLogs ∧
      ∃ ext, (evs.foldl (syncEventStep pid src) db).reservations = db.reservations ++ ext := by
  induction evs with
  | nil => intro db; exact ⟨rfl, rfl, [], by simp⟩
  | cons e0 tl ih =>
    intro db
    obtain ⟨h1, h2, ext1, h3⟩ := syncEventStep_shape pid src db e0
    obtain ⟨g1, g2, ext2, g3⟩ := ih (syncEventStep pid src db e0)
    refine ⟨?_, ?_, ext1 ++ ext2, ?_⟩
    · rw [List.foldl_cons, g1, h1]
    · rw [List.foldl_cons, g2, h2]
    · rw [List.foldl_cons, g3, h3, List.append_assoc]

theorem foldSES_post (pid : Nat) (src : String) (evs : List VEvent) :
    ∀ (db : Db) (e : VEvent), e ∈ evs → ∀ sMs eMs,
      e.startMs = some sMs → e.endMs = some eMs →
      resHas (evs.foldl (syncEventStep pid src) db) pid e.uid src = true := by
  induction evs with
  | nil => intro db e he; cases he
  | cons e0 tl ih =>
    intro db e he sMs eMs hs hend
    rw [List.foldl_cons]
    rcases List.mem_cons.mp he with h | h
    · subst h
      obtain ⟨-, -, ext, hres⟩ := foldSES_shape pid src tl (syncEventStep pid src db e)
      exact resHas_append _ _ ext hres pid e.uid src
        (syncEventStep_ensures pid src db e sMs eMs hs hend)
    · exact ih (syncEventStep pid src db e0) e h sMs eMs hs hend

theorem foldSES_id (pid : Nat) (src : String) (evs : List VEvent) :
    ∀ db : Db, (∀ e ∈ evs, ∀ sMs eMs, e.startMs = some sMs → e.endMs = some eMs →
      resHas db pid e.uid src = true) →
      evs.foldl (syncEventStep pid src) db = db := by
  induction evs with
  | nil => intro db _; rfl
  | cons e0 tl ih =>
    intro db h
    rw [List.foldl_cons, syncEventStep_id_of_has pid src db e0
      (h e0 (List.mem_cons_self e0 tl))]
    exact ih db (fun e he => h e (List.mem_cons_of_mem e0 he))

/-- After syncing one source, every well-formed fetched event of that
source has its reservation. -/
def sourceDone (fetch : String → Except String (List VEvent)) (pid : Nat)
    (us : String × String) (db : Db) : Prop :=
  ∀ e ∈ fetchEvents fetch (some us.1), ∀ sMs eMs,
    e.startMs = some sMs → e.endMs = some eMs → resHas db pid e.uid us.2 = true

theorem sourceDone_append (fetch : String → Except String (List VEvent)) (pid : Nat)
    (us : String × String) (db db2 : Db) (ext : List Reservation)
    (h2 : db2.reservations = db.reservations ++ ext)
    (h : sourceDone fetch pid us db) : sourceDone fetch pid us db2 := by
  intro e he sMs eMs hs hend
  exact resHas_append db db2 ext h2 pid e.uid us.2 (h e he sMs eMs hs hend)

theorem syncSource_shape (fetch : String → Except String (List VEvent)) (pid : Nat)
    (us : String × String) (db : Db) :
    (syncSource fetch pid us db).processedEvents = db.processedEvents ∧
    (syncSource fetch pid us db).messageLogs = db.messageLogs ∧
    ∃ ext, (syncSource fetch pid us db).reservations = db.reservations ++ ext :=
  foldSES_shape pid us.2 (fetchEvents fetch (some us.1)) db

theorem syncSource_post (fetch : String → Except String (List VEvent)) (pid : Nat)
    (us : String × String) (db : Db) : sourceDone fetch pid us (syncSource fetch pid us db) :=
  fun e he sMs eMs hs hend =>
    foldSES_post pid us.2 (fetchEvents fetch (some us.1)) db e he sMs eMs hs hend

theorem syncSource_id (fetch : String → Except String (List VEvent)) (pid : Nat)
    (us : String × String) (db : Db) (h : sourceDone fetch pid us db) :
    syncSource fetch pid us db = db :=
  foldSES_id pid us.2 (fetchEvents fetch (some us.1)) db h

/-- After syncing one property, every source of that property is done. -/
def propertyDone (fetch : String → Except String (List VEvent)) (p : PropertyC)
    (db : Db) : Prop :=
  ∀ us ∈ icalSources p, sourceDone fetch p.id us db

theorem syncPropertyCalendar_shape (fetch : String → Except String (List VEvent))
    (p : PropertyC) : ∀ db : Db,
    (syncPropertyCalendar fetch p db).processedEvents = db.processedEvents ∧
    (syncPropertyCalendar fetch p db).messageLogs = db.messageLogs ∧
    ∃ ext, (syncPropertyCalendar fetch p db).reservations = db.reservations ++ ext := by
  unfold syncPropertyCalendar
  induction icalSources p with
  | nil => intro db; exact ⟨rfl, rfl, [], by simp⟩
  | cons us tl ih =>
    intro db
    obtain ⟨h1, h2, ext1, h3⟩ := syncSource_shape fetch p.id us db
    obtain ⟨g1, g2, ext2, g3⟩ := ih (syncSource fetch p.id us db)
    refine ⟨?_, ?_, ext1 ++ ext2, ?_⟩
    · rw [List.foldl_cons, g1, h1]
    · rw [List.foldl_cons, g2, h2]
    · rw [List.foldl_cons, g3, h3, List.append_assoc]

theorem foldSources_res_shape (fetch : String → Except String (List VEvent)) (pid : Nat)
    (sources : List (String × String)) :
    ∀ d : Db, ∃ ext,
      (sources.foldl (fun d us => syncSource fetch pid us d) d).reservations =
        d.reservations ++ ext := by
  induction sources with
  | nil => intro d; exact ⟨[], by simp⟩
  | cons us1 tl1 ih1 =>
    intro d
    obtain ⟨-, -, e1, he1⟩ := syncSource_shape fetch pid us1 d
    obtain ⟨e2, he2⟩ := ih1 (syncSource fetch pid us1 d)
    exact ⟨e1 ++ e2, by rw [List.foldl_cons, he2, he1, List.append_assoc]⟩

theorem syncPropertyCalendar_post (fetch : String → Except String (List VEvent))
    (p : PropertyC) : ∀ db : Db, propertyDone fetch p (syncPropertyCalendar fetch p db) := by
  unfold syncPropertyCalendar propertyDone
  induction icalSources p with
  | nil => intro db us hus; cases hus
  | cons us0 tl ih =>
    intro db us hus
    rw [List.foldl_cons]
    rcases List.mem_cons.mp hus with h | h
    · subst h
      have hdone := syncSource_post fetch p.id us db
      obtain ⟨ext, hext⟩ := foldSources_res_shape fetch p.id tl (syncSource fetch p.id us db)
      exact sourceDone_append fetch p.id us _ _ ext hext hdone
    · exact ih (syncSource fetch p.id us0 db) us h

theorem syncPropertyCalendar_id (fetch : String → Except String (List VEvent))
    (p : PropertyC) : ∀ db : Db, propertyDone fetch p db →
      syncPropertyCalendar fetch p db = db := by
  unfold syncPropertyCalendar propertyDone
  induction icalSources p with
  | nil => intro db _; rfl
  | cons us0 tl ih =>
    intro db h
    rw [List.foldl_cons, syncSource_id fetch p.id us0 db (h us0 (List.mem_cons_self us0 tl))]
    exact ih db (fun us hus => h us (List.mem_cons_of_mem us0 hus))

theorem propertyDone_append (fetch : String → Except String (List VEvent)) (p : PropertyC)
    (db db2 : Db) (ext : List Reservation) (h2 : db2.reservations = db.reservations ++ ext)
    (h : propertyDone fetch p db) : propertyDone fetch p db2 :=
  fun us hus => sourceDone_append fetch p.id us db db2 ext h2 (h us hus)

theorem foldProps_shape (fetch : String → Except String (List VEvent))
    (ps : List PropertyC) : ∀ db : Db,
    ((ps.foldl (fun d p => syncPropertyCalendar fetch p d) db).processedEvents =
      db.processedEvents) ∧
    ((ps.foldl (fun d p => syncPropertyCalendar fetch p d) db).messageLogs =
      db.messageLogs) ∧
    ∃ ext, (ps.foldl (fun d p => syncPropertyCalendar fetch p d) db).reservations =
      db.reservations ++ ext := by
  induction ps with
  | nil => intro db; exact ⟨rfl, rfl, [], by simp⟩
  | cons p0 tl ih =>
    intro db
    obtain ⟨h1, h2, ext1, h3⟩ := syncPropertyCalendar_shape fetch p0 db
    obtain ⟨g1, g2, ext2, g3⟩ := ih (syncPropertyCalendar fetch p0 db)
    refine ⟨?_, ?_, ext1 ++ ext2, ?_⟩
    · rw [List.foldl_cons, g1, h1]
    · rw [List.foldl_cons, g2, h2]
    · rw [List.foldl_cons, g3, h3, List.append_assoc]

theorem foldProps_post (fetch : String → Except String (List VEvent))
    (ps : List PropertyC) : ∀ (db : Db) (p : PropertyC), p ∈ ps →
      propertyDone fetch p (ps.foldl (fun d q => syncPropertyCalendar fetch q d) db) := by
  induction ps with
  | nil => intro db p hp; cases hp
  | cons p0 tl ih =>
    intro db p hp
    rw [List.foldl_cons]
    rcases List.mem_cons.mp hp with h | h
    · subst h
      have hdone := syncPropertyCalendar_post fetch p db
      obtain ⟨-, -, ext, hext⟩ := foldProps_shape fetch tl (syncPropertyCalendar fetch p db)
      exact propertyDone_append fetch p _ _ ext hext hdone
    · exact ih (syncPropertyCalendar fetch p0 db) p h

theorem foldProps_id (fetch : String → Except String (List VEvent))
    (ps : List PropertyC) : ∀ db : Db, (∀ p ∈ ps, propertyDone fetch p db) →
      ps.foldl (fun d q => syncPropertyCalendar fetch q d) db = db := by
  induction ps with
  | nil => intro db _; rfl
  | cons p0 tl ih =>
    intro db h
    rw [List.foldl_cons, syncPropertyCalendar_id fetch p0 db (h p0 (List.mem_cons_self p0 tl))]
    exact ih db (fun p hp => h p (List.mem_cons_of_mem p0 hp))

/-- After `syncAllCalendars`, every synced property is done. -/
def allDone (fetch : String → Except String (List VEvent)) (cfg : Config) (db : Db) : Prop :=
  ∀ p ∈ cfg.properties.filter (fun p => p.isActive && !(icalSources p).isEmpty),
    propertyDone fetch p db

theorem syncAllCalendars_shape (fetch : String → Except String (List VEvent))
    (cfg : Config) (db : Db) :
    ((syncAllCalendars fetch cfg db).processedEvents = db.processedEvents) ∧
    ((syncAllCalendars fetch cfg db).messageLogs = db.messageLogs) ∧
    ∃ ext, (syncAllCalendars fetch cfg db).reservations = db.reservations ++ ext :=
  foldProps_shape fetch _ db

theorem syncAllCalendars_post (fetch : String → Except String (List VEvent))
    (cfg : Config) (db : Db) : allDone fetch cfg (syncAllCalendars fetch cfg db) :=
  fun p hp => foldProps_post fetch _ db p hp

theorem syncAllCalendars_id (fetch : String → Except String (List VEvent))
    (cfg : Config) (db : Db) (h : allDone fetch cfg db) :
    syncAllCalendars fetch cfg db = db :=
  foldProps_id fetch _ db h

theorem allDone_of_res_eq (fetch : String → Except String (List VEvent)) (cfg : Config)
    (db db2 : Db) (hres : db2.reservations = db.reservations)
    (h : allDone fetch cfg db) : allDone fetch cfg db2 :=
  fun p hp => propertyDone_append fetch p db db2 [] (by simp [hres]) (h p hp)

theorem propsWithCheckoutToday_res_eq (cfg : Config) (today : Int) (db db2 : Db)
    (h : db2.reservations = db.reservations) :
    propsWithCheckoutToday cfg today db2 = propsWithCheckoutToday cfg today db := by
  unfold propsWithCheckoutToday
  rw [h]

theorem sendCleaningNotifications_connected (cfg : Config) (today : Int)
    (sOk : String → Bool) (db : Db) :
    sendCleaningNotifications cfg true today sOk db =
      (byEmployee (propsWithCheckoutToday cfg today db)).foldl
        (processGroup cfg today sOk) { db := db, attempts := 0, sent := 0 } := by
  simp [sendCleaningNotifications]

/-- Running the full sync-and-notify pipeline a second time changes
nothing: the sync finds every imported reservation already present, and the
notification run finds every group's first property already marked for
today, so the second run inserts no row and sends no message. -/
theorem runPipeline_idem (cfg : Config) (fetch : String → Except String (List VEvent))
    (today : Int) (sOk : String → Bool) (db : Db) :
    runPipeline cfg fetch today sOk (runPipeline cfg fetch today sOk db) =
      runPipeline cfg fetch today sOk db := by
  have hrun1 : runPipeline cfg fetch today sOk db =
      ((byEmployee (propsWithCheckoutToday cfg today (syncAllCalendars fetch cfg db))).foldl
        (processGroup cfg today sOk)
        { db := syncAllCalendars fetch cfg db, attempts := 0, sent := 0 }).db := by
    unfold runPipeline
    rw [sendCleaningNotifications_connected]
  obtain ⟨-, -, extPE⟩ := syncAllCalendars_shape fetch cfg db
  obtain ⟨e2, l2, hpe2, hl2, hres2⟩ := foldPG_shape cfg today sOk
    (byEmployee (propsWithCheckoutToday cfg today (syncAllCalendars fetch cfg db)))
    { db := syncAllCalendars fetch cfg db, attempts := 0, sent := 0 }
  have hres1 : (runPipeline cfg fetch today sOk db).reservations =
      (syncAllCalendars fetch cfg db).reservations := by
    rw [hrun1]
    exact hres2
  have hsync2 : syncAllCalendars fetch cfg (runPipeline cfg fetch today sOk db) =
      runPipeline cfg fetch today sOk db :=
    syncAllCalendars_id fetch cfg _
      (allDone_of_res_eq fetch cfg _ _ hres1 (syncAllCalendars_post fetch cfg db))
  have hprops2 : propsWithCheckoutToday cfg today (runPipeline cfg fetch today sOk db) =
      propsWithCheckoutToday cfg today (syncAllCalendars fetch cfg db) :=
    propsWithCheckoutToday_res_eq cfg today _ _ hres1
  have hneutral : ∀ g ∈ byEmployee (propsWithCheckoutToday cfg today
      (syncAllCalendars fetch cfg db)),
      groupNeutral cfg today (runPipeline cfg fetch today sOk db) g := by
    intro g hg
    rw [hrun1]
    exact foldPG_neutral_post cfg today sOk _ _ g hg
  show (sendCleaningNotifications cfg true today sOk
    (syncAllCalendars fetch cfg (runPipeline cfg fetch today sOk db))).db = _
  rw [hsync2, sendCleaningNotifications_connected, hprops2]
  rw [foldPG_of_all_neutral cfg today sOk _
    { db := runPipeline cfg fetch today sOk db, attempts := 0, sent := 0 } hneutral]

/-! ## Characterization of the per-employee grouping -/

/-- Lookup of a phone's group in the insertion-ordered map. -/
def findGroup (l : List (String × CleanGroup)) (ph : String) : Option CleanGroup :=
  (l.find? (fun x => x.1 == ph)).map Prod.snd

/-- The grouping fold started from an arbitrary accumulator. -/
def byEmployeeFrom (acc : List (String × CleanGroup)) (props : List PropertyC) :
    List (String × CleanGroup) :=
  props.foldl
    (fun acc p =>
      match p.employeePhone with
      | none => acc
      | some ph => groupUpsert acc ph p.employeeName (toCheckout p))
    acc

theorem byEmployee_eq_from (props : List PropertyC) :
    byEmployee props = byEmployeeFrom [] props := rfl

theorem byEmployeeFrom_cons_none (acc : List (String × CleanGroup)) (p : PropertyC)
    (ps : List PropertyC) (hp : p.employeePhone = none) :
    byEmployeeFrom acc (p :: ps) = byEmployeeFrom acc ps := by
  show byEmployeeFrom (match p.employeePhone with
    | none => acc
    | some ph => groupUpsert acc ph p.employeeName (toCheckout p)) ps = _
  rw [hp]

theorem byEmployeeFrom_cons_some (acc : List (String × CleanGroup)) (p : PropertyC)
    (ps : List PropertyC) (ph : String) (hp : p.employeePhone = some ph) :
    byEmployeeFrom acc (p :: ps) =
      byEmployeeFrom (groupUpsert acc ph p.employeeName (toCheckout p)) ps := by
  show byEmployeeFrom (match p.employeePhone with
    | none => acc
    | some ph => groupUpsert acc ph p.employeeName (toCheckout p)) ps = _
  rw [hp]

theorem findGroup_cons (a : String) (b : CleanGroup) (l : List (String × CleanGroup))
    (ph : String) :
    findGroup ((a, b) :: l) ph = if a == ph then some b else findGroup l ph := by
  unfold findGroup
  cases h : (a == ph) with
  | true => simp [List.find?_cons, h]
  | false => simp [List.find?_cons, h]

theorem gu_find_self (acc : List (String × CleanGroup)) (ph en : String) (c : Checkout) :
    findGroup (groupUpsert acc ph en c) ph =
      some (match findGroup acc ph with
            | some g => { employeeName := g.employeeName, checkouts := g.checkouts ++ [c] }
            | none => { employeeName := en, checkouts := [c] }) := by
  induction acc with
  | nil => simp [groupUpsert, findGroup_cons, findGroup]
  | cons hd tl ih =>
    obtain ⟨ph0, g0⟩ := hd
    cases hb : (ph0 == ph) with
    | true =>
      unfold groupUpsert
      rw [hb]
      simp only [if_true]
      rw [findGroup_cons, hb, findGroup_cons, hb]
      simp
    | false =>
      unfold groupUpsert
      rw [hb]
      simp only [Bool.false_eq_true, if_false]
      rw [findGroup_cons, hb, findGroup_cons, hb]
      simp only [Bool.false_eq_true, if_false]
      exact ih

theorem gu_find_other (acc : List (String × CleanGroup)) (ph en : String) (c : Checkout)
    (ph2 : String) (hne : ph2 ≠ ph) :
    findGroup (groupUpsert acc ph en c) ph2 = findGroup acc ph2 := by
  induction acc with
  | nil =>
    unfold groupUpsert
    rw [findGroup_cons]
    rw [if_neg (by simp only [beq_iff_eq]; exact fun h => hne h.symm)]
  | cons hd tl ih =>
    obtain ⟨ph0, g0⟩ := hd
    cases hb : (ph0 == ph) with
    | true =>
      have hph0 : ph0 = ph := by simpa using hb
      unfold groupUpsert
      rw [hb]
      simp only [if_true]
      rw [findGroup_cons, findGroup_cons]
      have hb2 : (ph0 == ph2) = false := by
        simp only [beq_eq_false_iff_ne]
        subst hph0
        exact fun h => hne h.symm
      rw [hb2]
      simp
    | false =>
      unfold groupUpsert
      rw [hb]
      simp only [Bool.false_eq_true, if_false]
      rw [findGroup_cons, findGroup_cons]
      cases hb2 : (ph0 == ph2) with
      | true => simp
      | false => simp only [Bool.false_eq_true, if_false]; exact ih

theorem gu_keys (acc : List (String × CleanGroup)) (ph en : String) (c : Checkout) :
    (groupUpsert acc ph en c).map Prod.fst =
      if ph ∈ acc.map Prod.fst then acc.map Prod.fst else acc.map Prod.fst ++ [ph] := by
  induction acc with
  | nil => simp [groupUpsert]
  | cons hd tl ih =>
    obtain ⟨ph0, g0⟩ := hd
    cases hb : (ph0 == ph) with
    | true =>
      have : ph0 = ph := by simpa using hb
      subst this
      unfold groupUpsert
      rw [hb]
      simp
    | false =>
      have hne : ph0 ≠ ph := by simpa using hb
      unfold groupUpsert
      rw [hb]
      simp only [Bool.false_eq_true, if_false, List.map_cons, List.mem_cons]
      rw [ih]
      by_cases hm : ph ∈ tl.map Prod.fst
      · rw [if_pos hm, if_pos (Or.inr hm)]
      · rw [if_neg hm, if_neg (by rintro (h | h); exact hne h.symm; exact hm h)]
        simp

theorem byEmployeeFrom_keys_nodup (props : List PropertyC) :
    ∀ acc : List (String × CleanGroup), (acc.map Prod.fst).Nodup →
      ((byEmployeeFrom acc props).map Prod.fst).Nodup := by
  induction props with
  | nil => intro acc h; exact h
  | cons p ps ih =>
    intro acc h
    cases hp : p.employeePhone with
    | none =>
      rw [byEmployeeFrom_cons_none acc p ps hp]
      exact ih acc h
    | some ph =>
      rw [byEmployeeFrom_cons_some acc p ps ph hp]
      refine ih _ ?_
      rw [gu_keys]
      by_cases hm : ph ∈ acc.map Prod.fst
      · rw [if_pos hm]; exact h
      · rw [if_neg hm]
        rw [List.nodup_append]
        exact ⟨h, List.nodup_singleton ph, by
          intro a ha hb
          simp only [List.mem_singleton] at hb
          subst hb
          exact hm ha⟩

theorem byEmployee_keys_nodup (props : List PropertyC) :
    ((byEmployee props).map Prod.fst).Nodup := by
  rw [byEmployee_eq_from]
  exact byEmployeeFrom_keys_nodup props [] (by simp)

theorem byEmployeeFrom_find (props : List PropertyC) :
    ∀ (acc : List (String × CleanGroup)) (ph : String),
      findGroup (byEmployeeFrom acc props) ph =
        match findGroup acc ph with
        | some g => some (⟨g.employeeName, g.checkouts ++
            (props.filter (fun p => p.employeePhone == some ph)).map toCheckout⟩ : CleanGroup)
        | none =>
          match props.filter (fun p => p.employeePhone == some ph) with
          | [] => none
          | q :: qs => some (⟨q.employeeName, (q :: qs).map toCheckout⟩ : CleanGroup) := by
  induction props with
  | nil =>
    intro acc ph
    cases hf : findGroup acc ph with
    | none => simp [byEmployeeFrom, hf]
    | some g => simp [byEmployeeFrom, hf]
  | cons p ps ih =>
    intro acc ph
    cases hp : p.employeePhone with
    | none =>
      rw [byEmployeeFrom_cons_none acc p ps hp, ih acc ph]
      have hfil : (p :: ps).filter (fun q => q.employeePhone == some ph) =
          ps.filter (fun q => q.employeePhone == some ph) := by
        rw [List.filter_cons]
        simp [hp]
      rw [hfil]
    | some ph0 =>
      rw [byEmployeeFrom_cons_some acc p ps ph0 hp, ih _ ph]
      by_cases hb : ph0 = ph
      · subst hb
        have hfil : (p :: ps).filter (fun q => q.employeePhone == some ph0) =
            p :: ps.filter (fun q => q.employeePhone == some ph0) := by
          rw [List.filter_cons]
          simp [hp]
        rw [hfil, gu_find_self]
        cases hf : findGroup acc ph0 with
        | none => simp
        | some g => simp
      · have hfil : (p :: ps).filter (fun q => q.employeePhone == some ph) =
            ps.filter (fun q => q.employeePhone == some ph) := by
          rw [List.filter_cons]
          simp [hp, hb]
        rw [hfil, gu_find_other acc ph0 p.employeeName (toCheckout p) ph
          (fun h => hb h.symm)]

theorem byEmployee_find (props : List PropertyC) (ph : String) :
    findGroup (byEmployee props) ph =
      match props.filter (fun p => p.employeePhone == some ph) with
      | [] => none
      | q :: qs => some (⟨q.employeeName, (q :: qs).map toCheckout⟩ : CleanGroup) := by
  rw [byEmployee_eq_from, byEmployeeFrom_find props [] ph]
  rfl

theorem mem_findGroup (l : List (String × CleanGroup)) (hnodup : (l.map Prod.fst).Nodup)
    (ph : String) (g : CleanGroup) (h : (ph, g) ∈ l) : findGroup l ph = some g := by
  induction l with
  | nil => cases h
  | cons hd tl ih =>
    obtain ⟨ph0, g0⟩ := hd
    rw [findGroup_cons]
    rcases List.mem_cons.mp h with heq | hmem
    · injection heq with h1 h2
      subst h1; subst h2
      simp
    · have hne : ph0 ≠ ph := by
        intro hcontra
        subst hcontra
        have : ph0 ∈ tl.map Prod.fst :=
          List.mem_map_of_mem Prod.fst hmem
        exact (List.nodup_cons.mp (by simpa using hnodup)).1 this
      rw [if_neg (by simpa using hne)]
      exact ih (List.nodup_cons.mp (by simpa using hnodup)).2 hmem

theorem findGroup_mem (l : List (String × CleanGroup)) (ph : String) (g : CleanGroup)
    (h : findGroup l ph = some g) : (ph, g) ∈ l := by
  unfold findGroup at h
  cases hf : l.find? (fun x => x.1 == ph) with
  | none => rw [hf] at h; cases h
  | some x =>
    rw [hf] at h
    have hx : x.2 = g := by simpa using h
    have hpred := List.find?_some hf
    have hmem := List.mem_of_find?_eq_some hf
    have hx1 : x.1 = ph := by simpa using hpred
    have : x = (ph, g) := by
      obtain ⟨a, b⟩ := x
      simp only at hx hx1
      rw [hx, hx1]
    rw [this] at hmem
    exact hmem

/-- Every group of `byEmployee` consists of exactly the checkouts of the
properties carrying that phone, in props order; groups are nonempty. -/
theorem byEmployee_checkouts (props : List PropertyC) (ph : String) (g : CleanGroup)
    (h : (ph, g) ∈ byEmployee props) :
    g.checkouts = (props.filter (fun p => p.employeePhone == some ph)).map toCheckout ∧
      g.checkouts ≠ [] := by
  have hfind := mem_findGroup (byEmployee props) (byEmployee_keys_nodup props) ph g h
  rw [byEmployee_find props ph] at hfind
  cases hfil : props.filter (fun p => p.employeePhone == some ph) with
  | nil => rw [hfil] at hfind; cases hfind
  | cons q qs =>
    rw [hfil] at hfind
    have : g = { employeeName := q.employeeName, checkouts := (q :: qs).map toCheckout } := by
      injection hfind with h2
      exact h2.symm
    subst this
    exact ⟨rfl, by simp⟩

/-- A property carrying a phone puts that phone's (unique) consolidated
group in `byEmployee`. -/
theorem byEmployee_exists (props : List PropertyC) (ph : String) (q : PropertyC)
    (hq : q ∈ props) (hphone : q.employeePhone = some ph) :
    ∃ g, (ph, g) ∈ byEmployee props := by
  have hqf : q ∈ props.filter (fun p => p.employeePhone == some ph) :=
    List.mem_filter.mpr ⟨hq, by simp [hphone]⟩
  cases hfil : props.filter (fun p => p.employeePhone == some ph) with
  | nil => rw [hfil] at hqf; cases hqf
  | cons q0 qs =>
    refine ⟨{ employeeName := q0.employeeName, checkouts := (q0 :: qs).map toCheckout }, ?_⟩
    apply findGroup_mem
    rw [byEmployee_find props ph, hfil]

/-! ## Exact counting over one cleaning run -/

/-- All checkouts of all groups, in processing order. -/
def allCheckouts (gs : List (String × CleanGroup)) : List Checkout :=
  (gs.map (fun g => g.2.checkouts)).flatten

theorem allCheckouts_cons (g : String × CleanGroup) (tl : List (String × CleanGroup)) :
    allCheckouts (g :: tl) = g.2.checkouts ++ allCheckouts tl := by
  simp [allCheckouts]

theorem countCleaningSent_append (db db2 : Db) (ext : List MsgLog)
    (h2 : db2.messageLogs = db.messageLogs ++ ext) (ph : String) :
    countCleaningSent db2 ph = countCleaningSent db ph +
      (ext.filter (fun l =>
        l.typ == "cleaning" && l.recipient == some ph && l.status == "sent")).length := by
  unfold countCleaningSent
  rw [h2, List.filter_append, List.length_append]

theorem foldPG_counts (cfg : Config) (today : Int) (sOk : String → Bool)
    (gs : List (String × CleanGroup)) :
    ∀ st : RunState,
    (gs.map Prod.fst).Nodup →
    (∀ ph g c, (ph, g) ∈ gs → c ∈ g.checkouts →
      ∃ q, findProperty cfg c.propertyId = some q ∧ q.employeePhone = some ph) →
    ((allCheckouts gs).map Checkout.propertyId).Nodup →
    (∀ c ∈ allCheckouts gs, alreadySentCheck st.db c.propertyId today = false) →
    (∀ ph g, (ph, g) ∈ gs → g.checkouts ≠ []) →
    (∀ s, sOk s = true) →
    (∀ ph g, (ph, g) ∈ gs →
      countCleaningSent (gs.foldl (processGroup cfg today sOk) st).db ph =
        countCleaningSent st.db ph + 1) ∧
    (∀ c ∈ allCheckouts gs,
      countPEKey (gs.foldl (processGroup cfg today sOk) st).db c.propertyId
          (dayUid today) today =
        countPEKey st.db c.propertyId (dayUid today) today + 1) ∧
    (∀ ph, ph ∉ gs.map Prod.fst →
      countCleaningSent (gs.foldl (processGroup cfg today sOk) st).db ph =
        countCleaningSent st.db ph) ∧
    (∀ pid, pid ∉ (allCheckouts gs).map Checkout.propertyId →
      countPEKey (gs.foldl (processGroup cfg today sOk) st).db pid (dayUid today) today =
        countPEKey st.db pid (dayUid today) today) := by
  induction gs with
  | nil =>
    intro st _ _ _ _ _ _
    exact ⟨fun ph g h => absurd h (List.not_mem_nil _), fun c hc => absurd hc (by simp [allCheckouts]),
      fun ph _ => rfl, fun pid _ => rfl⟩
  | cons g0p tl ih =>
    intro st hkeys hassoc hpids hclean hnonempty hsend
    obtain ⟨ph0, g0⟩ := g0p
    cases hg0 : g0.checkouts with
    | nil => exact absurd hg0 (hnonempty ph0 g0 (List.mem_cons_self _ tl))
    | cons c0 rest =>
    have hc0mem : c0 ∈ allCheckouts ((ph0, g0) :: tl) := by
      rw [allCheckouts_cons, hg0]
      exact List.mem_append_left _ (List.mem_cons_self c0 rest)
    have hpre : alreadySentCheck st.db c0.propertyId today = false := hclean c0 hc0mem
    obtain ⟨q, hfp, hqp⟩ := hassoc ph0 g0 c0 (List.mem_cons_self _ tl)
      (by rw [hg0]; exact List.mem_cons_self c0 rest)
    have hrun := processGroup_eq_of_run cfg today sOk st ph0 g0 c0 rest q hg0 hpre hfp
    -- the appended log is a sent cleaning message to ph0
    have houtcome : sendOutcome sOk q.employeePhone = ("sent", 1) := by
      rw [hqp]
      simp [sendOutcome, hsend ph0]
    set logRow : MsgLog := ⟨"cleaning", "whatsapp", q.employeePhone,
      cleaningFallbackMessage q.employeeName q.name c0.checkoutTime (c0 :: rest),
      (sendOutcome sOk q.employeePhone).1⟩ with hlogRow
    set db1 : Db := { st.db with messageLogs := st.db.messageLogs ++ [logRow] } with hdb1
    have hst1 : processGroup cfg today sOk st (ph0, g0) =
        { db := markAll today (c0 :: rest) db1, attempts := st.attempts +
          (sendOutcome sOk q.employeePhone).2, sent := st.sent + 1 } := hrun
    -- nodup and disjointness of property ids
    have hpids' : (g0.checkouts.map Checkout.propertyId).Nodup ∧
        ((allCheckouts tl).map Checkout.propertyId).Nodup ∧
        (g0.checkouts.map Checkout.propertyId).Disjoint
          ((allCheckouts tl).map Checkout.propertyId) := by
      rw [allCheckouts_cons, List.map_append] at hpids
      exact List.nodup_append.mp hpids
    have hgnodup : ((c0 :: rest).map Checkout.propertyId).Nodup := by
      rw [← hg0]; exact hpids'.1
    -- the group's marking: per-checkout clean at db1
    have hcleang : ∀ c ∈ (c0 :: rest), alreadySentCheck db1 c.propertyId today = false := by
      intro c hc
      have : c ∈ allCheckouts ((ph0, g0) :: tl) := by
        rw [allCheckouts_cons, hg0]
        exact List.mem_append_left _ hc
      exact hclean c this
    have hmarked := markAll_countPEKey today (c0 :: rest) db1 hgnodup hcleang
    obtain ⟨extPE, hextPE, hrows, hmlogs, -⟩ := markAll_shape today (c0 :: rest) db1
    set st1 := processGroup cfg today sOk st (ph0, g0) with hst1def
    have hst1db : st1.db = markAll today (c0 :: rest) db1 := by rw [hst1]
    have hsent1 : ∀ ph : String, countCleaningSent st1.db ph =
        countCleaningSent st.db ph + (if ph = ph0 then 1 else 0) := by
      intro ph
      have hlogs1 : st1.db.messageLogs = st.db.messageLogs ++ [logRow] := by
        rw [hst1db, hmlogs]
      rw [countCleaningSent_append st.db st1.db [logRow] hlogs1 ph]
      congr 1
      by_cases hph : ph = ph0
      · subst hph
        simp [hlogRow, hqp, sendOutcome, hsend ph]
      · have hrec : logRow.recipient = some ph0 := by rw [hlogRow]; exact hqp
        have h2 : (logRow.recipient == some ph) = false := by
          rw [hrec, beq_eq_false_iff_ne]
          intro hcontra
          injection hcontra with hcc
          exact hph hcc.symm
        have hpred : (logRow.typ == "cleaning" && logRow.recipient == some ph &&
            logRow.status == "sent") = false := by
          simp [h2]
        rw [if_neg hph]
        simp only [List.filter_cons, List.filter_nil]
        rw [hpred]
        simp
    have hpe1 : ∀ pid, countPEKey st1.db pid (dayUid today) today =
        countPEKey st.db pid (dayUid today) today +
          (if pid ∈ (c0 :: rest).map Checkout.propertyId then 1 else 0) := by
      intro pid
      rw [hst1db, hmarked pid]
      rfl
    have hkeystl : (tl.map Prod.fst).Nodup := by
      simp only [List.map_cons, List.nodup_cons] at hkeys
      exact hkeys.2
    have hph0nin : ph0 ∉ tl.map Prod.fst := by
      simp only [List.map_cons, List.nodup_cons] at hkeys
      exact hkeys.1
    have hassoctl : ∀ ph g c, (ph, g) ∈ tl → c ∈ g.checkouts →
        ∃ q2, findProperty cfg c.propertyId = some q2 ∧ q2.employeePhone = some ph :=
      fun ph g c hg hc => hassoc ph g c (List.mem_cons_of_mem _ hg) hc
    have hnonemptytl : ∀ ph g, (ph, g) ∈ tl → g.checkouts ≠ [] :=
      fun ph g hg => hnonempty ph g (List.mem_cons_of_mem _ hg)
    have hcleantl : ∀ c ∈ allCheckouts tl,
        alreadySentCheck st1.db c.propertyId today = false := by
      intro c hc
      have hfalse : alreadySentCheck db1 c.propertyId today = false := by
        have : c ∈ allCheckouts ((ph0, g0) :: tl) := by
          rw [allCheckouts_cons]
          exact List.mem_append_right _ hc
        exact hclean c this
      refine alreadySentCheck_append_false db1 st1.db c.propertyId today extPE
        (by rw [hst1db, hextPE]) ?_ hfalse
      intro pe hpe hcontra
      have hrow := (hrows pe hpe).2.2.2
      rw [hcontra] at hrow
      rw [← hg0] at hrow
      exact hpids'.2.2 hrow (List.mem_map_of_mem Checkout.propertyId hc)
    obtain ⟨ih1, ih2, ih3, ih4⟩ := ih st1 hkeystl hassoctl hpids'.2.1 hcleantl
      hnonemptytl hsend
    rw [List.foldl_cons]
    refine ⟨?_, ?_, ?_, ?_⟩
    · intro ph g hg
      rcases List.mem_cons.mp hg with heq | hmem
      · injection heq with he1 he2
        subst he1
        rw [← hst1def]
        rw [ih3 ph hph0nin, hsent1 ph, if_pos rfl]
      · have hne : ph ≠ ph0 := by
          intro hcontra
          subst hcontra
          exact hph0nin (List.mem_map_of_mem Prod.fst hmem)
        rw [← hst1def]
        rw [ih1 ph g hmem, hsent1 ph, if_neg hne]
    · intro c hc
      rw [allCheckouts_cons, hg0] at hc
      rw [← hst1def]
      rcases List.mem_append.mp hc with hin | hin
      · have hpidin : c.propertyId ∈ (c0 :: rest).map Checkout.propertyId :=
          List.mem_map_of_mem Checkout.propertyId hin
        have hpidnin : c.propertyId ∉ (allCheckouts tl).map Checkout.propertyId := by
          intro hcontra
          exact hpids'.2.2 (by rw [hg0]; exact hpidin) hcontra
        rw [ih4 c.propertyId hpidnin, hpe1 c.propertyId, if_pos hpidin]
      · have hpidin2 : c.propertyId ∈ (allCheckouts tl).map Checkout.propertyId :=
          List.mem_map_of_mem Checkout.propertyId hin
        have hpidnin2 : c.propertyId ∉ (c0 :: rest).map Checkout.propertyId := by
          intro hcontra
          exact hpids'.2.2 (by rw [hg0]; exact hcontra) hpidin2
        rw [ih2 c hin, hpe1 c.propertyId, if_neg hpidnin2]
    · intro ph hph
      simp only [List.map_cons, List.mem_cons] at hph
      push_neg at hph
      rw [← hst1def]
      rw [ih3 ph hph.2, hsent1 ph, if_neg hph.1]
      omega
    · intro pid hpid
      rw [allCheckouts_cons, List.map_append] at hpid
      simp only [List.mem_append] at hpid
      push_neg at hpid
      rw [← hst1def]
      have hnin1 : pid ∉ (c0 :: rest).map Checkout.propertyId := by
        rw [← hg0]
        exact hpid.1
      rw [ih4 pid hpid.2, hpe1 pid, if_neg hnin1]
      omega

theorem find_id_eq (ps : List PropertyC) (h : (ps.map PropertyC.id).Nodup)
    (q : PropertyC) (hq : q ∈ ps) : ps.find? (fun p => p.id == q.id) = some q := by
  induction ps with
  | nil => cases hq
  | cons p0 tl ih =>
    rw [List.find?_cons]
    rcases List.mem_cons.mp hq with heq | hmem
    · subst heq
      simp
    · have h2 : (p0.id :: tl.map PropertyC.id).Nodup := by
        rw [List.map_cons] at h
        exact h
      have hnodup := List.nodup_cons.mp h2
      have hne : (p0.id == q.id) = false := by
        rw [beq_eq_false_iff_ne]
        intro hcontra
        exact hnodup.1 (hcontra ▸ List.mem_map_of_mem PropertyC.id hmem)
      rw [hne]
      exact ih hnodup.2 hmem

theorem findProperty_eq (cfg : Config) (hids : (cfg.properties.map PropertyC.id).Nodup)
    (q : PropertyC) (hq : q ∈ cfg.properties) : findProperty cfg q.id = some q :=
  find_id_eq cfg.properties hids q hq

/-- The checkouts of a member group sit inside `allCheckouts`. -/
theorem mem_allCheckouts (gs : List (String × CleanGroup)) (ph : String) (g : CleanGroup)
    (hg : (ph, g) ∈ gs) (c : Checkout) (hc : c ∈ g.checkouts) : c ∈ allCheckouts gs := by
  unfold allCheckouts
  rw [List.mem_flatten]
  exact ⟨g.checkouts, List.mem_map_of_mem (fun x => x.2.checkouts) hg, hc⟩

/-- Under distinct property ids, the property ids of all checkouts across
all groups of `byEmployee` are pairwise distinct: each group is a filter of
the property list by its phone, and distinct phones select disjoint
properties. -/
theorem allCheckouts_pids_nodup (props : List PropertyC)
    (hids : (props.map PropertyC.id).Nodup) :
    ((allCheckouts (byEmployee props)).map Checkout.propertyId).Nodup := by
  unfold allCheckouts
  rw [List.map_flatten, List.map_map, List.nodup_flatten]
  constructor
  · intro l hl
    rw [List.mem_map] at hl
    obtain ⟨gp, hgp, hleq⟩ := hl
    obtain ⟨ph, g⟩ := gp
    obtain ⟨hchk, -⟩ := byEmployee_checkouts props ph g hgp
    subst hleq
    show ((fun x : String × CleanGroup => x.2.checkouts.map Checkout.propertyId) (ph, g)).Nodup
    simp only
    rw [hchk, List.map_map]
    have : (Checkout.propertyId ∘ toCheckout) = PropertyC.id := rfl
    rw [this]
    exact ((List.filter_sublist props).map PropertyC.id).nodup hids
  · rw [List.pairwise_map]
    have hkeys := byEmployee_keys_nodup props
    rw [List.Nodup, List.pairwise_map] at hkeys
    refine List.Pairwise.imp_of_mem ?_ hkeys
    intro a b ha hb hne
    obtain ⟨pha, ga⟩ := a
    obtain ⟨phb, gb⟩ := b
    obtain ⟨hca, -⟩ := byEmployee_checkouts props pha ga ha
    obtain ⟨hcb, -⟩ := byEmployee_checkouts props phb gb hb
    simp only at hne
    show List.Disjoint (ga.checkouts.map Checkout.propertyId)
      (gb.checkouts.map Checkout.propertyId)
    rw [hca, hcb, List.map_map, List.map_map]
    have hco : (Checkout.propertyId ∘ toCheckout) = PropertyC.id := rfl
    rw [hco]
    intro pid hina hinb
    rw [List.mem_map] at hina hinb
    obtain ⟨qa, hqa, hqaid⟩ := hina
    obtain ⟨qb, hqb, hqbid⟩ := hinb
    have hqa2 := List.mem_filter.mp hqa
    have hqb2 := List.mem_filter.mp hqb
    have : qa = qb := List.inj_on_of_nodup_map hids hqa2.1 hqb2.1 (by rw [hqaid, hqbid])
    subst this
    have h1 : qa.employeePhone = some pha := by simpa using hqa2.2
    have h2 : qa.employeePhone = some phb := by simpa using hqb2.2
    rw [h1] at h2
    injection h2 with h3
    exact hne h3

/-- C1.  Idempotency of the sync-and-notify pipeline: with pairwise
distinct property ids and a dispatch provider that accepts every send,
running the calendar-sync plus cleaning-notification pipeline twice from a
fresh database equals running it once, and for every property with a
confirmed checkout today and an assigned employee phone, the state after
the two runs holds exactly one sent cleaning MessageLog for that phone and
exactly one ProcessedEvent row for that property's composite key — never
two. -/
theorem C1_sync_notify_idempotency (cfg : Config)
    (fetch : String → Except String (List VEvent)) (today : Int)
    (sendOk : String → Bool)
    (hids : (cfg.properties.map PropertyC.id).Nodup)
    (hsend : ∀ s, sendOk s = true) :
    runPipeline cfg fetch today sendOk (runPipeline cfg fetch today sendOk emptyDb) =
      runPipeline cfg fetch today sendOk emptyDb ∧
    (∀ p ph, p ∈ propsWithCheckoutToday cfg today (syncAllCalendars fetch cfg emptyDb) →
      p.employeePhone = some ph →
      countCleaningSent
        (runPipeline cfg fetch today sendOk (runPipeline cfg fetch today sendOk emptyDb))
        ph = 1 ∧
      countPEKey
        (runPipeline cfg fetch today sendOk (runPipeline cfg fetch today sendOk emptyDb))
        p.id (dayUid today) today = 1) := by
  have hidem := runPipeline_idem cfg fetch today sendOk emptyDb
  refine ⟨hidem, ?_⟩
  intro p ph hp hph
  rw [hidem]
  have hrun1 : runPipeline cfg fetch today sendOk emptyDb =
      ((byEmployee (propsWithCheckoutToday cfg today (syncAllCalendars fetch cfg emptyDb))).foldl
        (processGroup cfg today sendOk)
        { db := syncAllCalendars fetch cfg emptyDb, attempts := 0, sent := 0 }).db := by
    unfold runPipeline
    rw [sendCleaningNotifications_connected]
  have hPEempty : (syncAllCalendars fetch cfg emptyDb).processedEvents = [] :=
    (syncAllCalendars_shape fetch cfg emptyDb).1
  have hLogempty : (syncAllCalendars fetch cfg emptyDb).messageLogs = [] :=
    (syncAllCalendars_shape fetch cfg emptyDb).2.1
  have hkeys := byEmployee_keys_nodup
    (propsWithCheckoutToday cfg today (syncAllCalendars fetch cfg emptyDb))
  have hpropids : ((propsWithCheckoutToday cfg today
      (syncAllCalendars fetch cfg emptyDb)).map PropertyC.id).Nodup :=
    ((List.filter_sublist cfg.properties).map PropertyC.id).nodup hids
  have hassoc : ∀ ph2 g c,
      (ph2, g) ∈ byEmployee (propsWithCheckoutToday cfg today
        (syncAllCalendars fetch cfg emptyDb)) →
      c ∈ g.checkouts →
      ∃ q, findProperty cfg c.propertyId = some q ∧ q.employeePhone = some ph2 := by
    intro ph2 g c hg hc
    obtain ⟨hchk, -⟩ := byEmployee_checkouts _ ph2 g hg
    rw [hchk, List.mem_map] at hc
    obtain ⟨q, hqf, hqc⟩ := hc
    have hq2 := List.mem_filter.mp hqf
    have hqprops : q ∈ cfg.properties := List.mem_of_mem_filter hq2.1
    have hphone : q.employeePhone = some ph2 := by simpa using hq2.2
    subst hqc
    exact ⟨q, findProperty_eq cfg hids q hqprops, hphone⟩
  have hpids := allCheckouts_pids_nodup
    (propsWithCheckoutToday cfg today (syncAllCalendars fetch cfg emptyDb)) hpropids
  have hclean : ∀ c ∈ allCheckouts (byEmployee (propsWithCheckoutToday cfg today
      (syncAllCalendars fetch cfg emptyDb))),
      alreadySentCheck ((⟨syncAllCalendars fetch cfg emptyDb, 0, 0⟩ : RunState)).db
        c.propertyId today = false := by
    intro c _
    show alreadySentCheck (syncAllCalendars fetch cfg emptyDb) c.propertyId today = false
    unfold alreadySentCheck
    rw [hPEempty]
    rfl
  have hnonempty : ∀ ph2 g, (ph2, g) ∈ byEmployee (propsWithCheckoutToday cfg today
      (syncAllCalendars fetch cfg emptyDb)) → g.checkouts ≠ [] :=
    fun ph2 g hg => (byEmployee_checkouts _ ph2 g hg).2
  obtain ⟨hcount1, hcount2, -, -⟩ := foldPG_counts cfg today sendOk
    (byEmployee (propsWithCheckoutToday cfg today (syncAllCalendars fetch cfg emptyDb)))
    { db := syncAllCalendars fetch cfg emptyDb, attempts := 0, sent := 0 }
    hkeys hassoc hpids hclean hnonempty hsend
  obtain ⟨g, hg⟩ := byEmployee_exists _ ph p hp hph
  constructor
  · rw [hrun1, hcount1 ph g hg]
    show countCleaningSent (syncAllCalendars fetch cfg emptyDb) ph + 1 = 1
    unfold countCleaningSent
    rw [hLogempty]
    rfl
  · have hchk := (byEmployee_checkouts _ ph g hg).1
    have hpfil : p ∈ (propsWithCheckoutToday cfg today
        (syncAllCalendars fetch cfg emptyDb)).filter
          (fun q => q.employeePhone == some ph) :=
      List.mem_filter.mpr ⟨hp, by simp [hph]⟩
    have hcmem : toCheckout p ∈ g.checkouts := by
      rw [hchk]
      exact List.mem_map_of_mem toCheckout hpfil
    have hac := mem_allCheckouts _ ph g hg _ hcmem
    have hc2 := hcount2 (toCheckout p) hac
    rw [hrun1]
    rw [show (toCheckout p).propertyId = p.id from rfl] at hc2
    rw [hc2]
    show countPEKey (syncAllCalendars fetch cfg emptyDb) p.id (dayUid today) today + 1 = 1
    unfold countPEKey
    rw [hPEempty]
    rfl

/-- A property with one Airbnb calendar and a checkout today. -/
def pW1 : PropertyC :=
  ⟨1, "Loft A", "Ana", some "5511999", some "11:00", true, some "https://cal-a", none, none⟩

/-- A configuration holding only `pW1`. -/
def cfgW1 : Config := ⟨[pW1]⟩

/-- A reservation event ending today (2024-11-23, 11:00 local). -/
def evW1 : VEvent := ⟨"ev-1", "G (AB12)", true, some (msC2End - 86400000), some msC2End⟩

/-- A fetch environment serving `pW1`'s calendar. -/
def fetchW1 : String → Except String (List VEvent) := fun u =>
  if u = "https://cal-a" then .ok [evW1] else .error "nope"

/-- Witness for C1 at a one-property configuration: running the pipeline
twice equals running it once, with exactly one sent cleaning message to the
employee and exactly one ProcessedEvent row for the property. -/
theorem C1_sync_notify_idempotency_witness :
    runPipeline cfgW1 fetchW1 day20241123 (fun _ => true)
        (runPipeline cfgW1 fetchW1 day20241123 (fun _ => true) emptyDb) =
      runPipeline cfgW1 fetchW1 day20241123 (fun _ => true) emptyDb ∧
    countCleaningSent (runPipeline cfgW1 fetchW1 day20241123 (fun _ => true)
        (runPipeline cfgW1 fetchW1 day20241123 (fun _ => true) emptyDb)) "5511999" = 1 ∧
    countPEKey (runPipeline cfgW1 fetchW1 day20241123 (fun _ => true)
        (runPipeline cfgW1 fetchW1 day20241123 (fun _ => true) emptyDb))
      pW1.id (dayUid day20241123) day20241123 = 1 :=
  ⟨(C1_sync_notify_idempotency cfgW1 fetchW1 day20241123 (fun _ => true) (by decide)
      (fun _ => rfl)).1,
   ((C1_sync_notify_idempotency cfgW1 fetchW1 day20241123 (fun _ => true) (by decide)
      (fun _ => rfl)).2 pW1 "5511999" (by decide) rfl).1,
   ((C1_sync_notify_idempotency cfgW1 fetchW1 day20241123 (fun _ => true) (by decide)
      (fun _ => rfl)).2 pW1 "5511999" (by decide) rfl).2⟩

/-! ## Claim C3: marking on dispatch success only -/

/-- A property whose employee's sends will fail. -/
def propC3 : PropertyC := ⟨1, "Loft A", "Ana", some "5511999", some "11:00", true, none, none, none⟩

/-- A configuration holding only `propC3`. -/
def cfgC3 : Config := ⟨[propC3]⟩

/-- A database with one confirmed reservation checking out today. -/
def dbC3 : Db := ⟨[], [], [⟨1, "res-1", msC2End - 86400000, msC2End, "airbnb", "confirmed"⟩]⟩

/-- The cleaning run over `dbC3` with a provider that rejects every send. -/
def stC3 : RunState := sendCleaningNotifications cfgC3 true day20241123 (fun _ => false) dbC3

/-- C3 counterexample.  A run whose only send fails still writes the
ProcessedEvent marker: the MessageLog row is recorded as failed, yet the
event is marked processed, so the claim that a failed send leaves all of
the message's events unmarked is false on this code — the scheduler marks
after `addNotificationJob` returns, and `send` reports failure in its
return value instead of throwing. -/
theorem C3_counterexample :
    stC3.db.messageLogs = [⟨"cleaning", "whatsapp", some "5511999",
      cleaningFallbackMessage "Ana" "Loft A" "11:00" [toCheckout propC3], "failed"⟩] ∧
    stC3.db.processedEvents =
      [⟨1, dayUid day20241123, some day20241123, some "checkout"⟩] := by
  constructor <;> decide

theorem upsertPE_pe_congr (db1 db2 : Db) (h : db1.processedEvents = db2.processedEvents)
    (pid : Nat) (uid : String) (day : Int) :
    (upsertPE db1 pid uid day).processedEvents = (upsertPE db2 pid uid day).processedEvents := by
  unfold upsertPE
  by_cases hc : db1.processedEvents.any (fun pe => peKeyEq pe pid uid day) = true
  · rw [if_pos hc, if_pos (h ▸ hc), h]
  · rw [if_neg hc, if_neg (by rw [← h]; exact hc)]
    simp [h]

theorem markAll_pe_congr (today : Int) (cos : List Checkout) :
    ∀ db1 db2 : Db, db1.processedEvents = db2.processedEvents →
      (markAll today cos db1).processedEvents = (markAll today cos db2).processedEvents := by
  induction cos with
  | nil => intro db1 db2 h; exact h
  | cons c tl ih =>
    intro db1 db2 h
    rw [markAll_cons, markAll_cons]
    exact ih _ _ (upsertPE_pe_congr db1 db2 h c.propertyId (dayUid today) today)

/-- C3 amended.  In the scheduler's cleaning run, whenever a group is
dispatched (pre-check clean, property row found), the set of ProcessedEvent
rows written is independent of the dispatch outcome, every checkout of the
message is marked, and with a phone whose sends fail the run records a
failed MessageLog row while still marking — failed sends are therefore not
retried by later runs. -/
theorem C3_amended (cfg : Config) (today : Int) (sOkA sOkB : String → Bool)
    (st : RunState) (ph : String) (g : CleanGroup) (c0 : Checkout) (rest : List Checkout)
    (prop : PropertyC) (hg : g.checkouts = c0 :: rest)
    (hpre : alreadySentCheck st.db c0.propertyId today = false)
    (hfp : findProperty cfg c0.propertyId = some prop) :
    (processGroup cfg today sOkA st (ph, g)).db.processedEvents =
      (processGroup cfg today sOkB st (ph, g)).db.processedEvents ∧
    (∀ c ∈ g.checkouts, (processGroup cfg today sOkA st (ph, g)).db.processedEvents.any
        (fun pe => peKeyEq pe c.propertyId (dayUid today) today) = true) ∧
    (∀ phn, prop.employeePhone = some phn → sOkA phn = false →
      (processGroup cfg today sOkA st (ph, g)).db.messageLogs =
        st.db.messageLogs ++ [⟨"cleaning", "whatsapp", some phn,
          cleaningFallbackMessage prop.employeeName prop.name c0.checkoutTime (c0 :: rest),
          "failed"⟩]) := by
  rw [processGroup_eq_of_run cfg today sOkA st ph g c0 rest prop hg hpre hfp,
      processGroup_eq_of_run cfg today sOkB st ph g c0 rest prop hg hpre hfp]
  refine ⟨?_, ?_, ?_⟩
  · exact markAll_pe_congr today (c0 :: rest) _ _ rfl
  · intro c hc
    rw [hg] at hc
    exact markAll_key_present today (c0 :: rest) _ c hc
  · intro phn hphn hfail
    obtain ⟨-, -, -, hlogs, -⟩ := markAll_shape today (c0 :: rest)
      { st.db with messageLogs := st.db.messageLogs ++
        [(⟨"cleaning", "whatsapp", prop.employeePhone,
          cleaningFallbackMessage prop.employeeName prop.name c0.checkoutTime (c0 :: rest),
          (sendOutcome sOkA prop.employeePhone).1⟩ : MsgLog)] }
    rw [hlogs]
    rw [hphn]
    simp [sendOutcome, hfail]

/-- Witness for C3 amended at the failing-send fixture. -/
theorem C3_amended_witness :
    (processGroup cfgC3 day20241123 (fun _ => false) ⟨dbC3, 0, 0⟩
        ("5511999", ⟨"Ana", [toCheckout propC3]⟩)).db.processedEvents =
      (processGroup cfgC3 day20241123 (fun _ => true) ⟨dbC3, 0, 0⟩
        ("5511999", ⟨"Ana", [toCheckout propC3]⟩)).db.processedEvents ∧
    (∀ c ∈ ([toCheckout propC3] : List Checkout),
      (processGroup cfgC3 day20241123 (fun _ => false) ⟨dbC3, 0, 0⟩
          ("5511999", ⟨"Ana", [toCheckout propC3]⟩)).db.processedEvents.any
        (fun pe => peKeyEq pe c.propertyId (dayUid day20241123) day20241123) = true) ∧
    (processGroup cfgC3 day20241123 (fun _ => false) ⟨dbC3, 0, 0⟩
        ("5511999", ⟨"Ana", [toCheckout propC3]⟩)).db.messageLogs =
      dbC3.messageLogs ++ [⟨"cleaning", "whatsapp", some "5511999",
        cleaningFallbackMessage "Ana" "Loft A" "11:00" [toCheckout propC3], "failed"⟩] :=
  ⟨(C3_amended cfgC3 day20241123 (fun _ => false) (fun _ => true) ⟨dbC3, 0, 0⟩ "5511999"
      ⟨"Ana", [toCheckout propC3]⟩ (toCheckout propC3) [] propC3 rfl (by decide) (by decide)).1,
   (C3_amended cfgC3 day20241123 (fun _ => false) (fun _ => true) ⟨dbC3, 0, 0⟩ "5511999"
      ⟨"Ana", [toCheckout propC3]⟩ (toCheckout propC3) [] propC3 rfl (by decide) (by decide)).2.1,
   (C3_amended cfgC3 day20241123 (fun _ => false) (fun _ => true) ⟨dbC3, 0, 0⟩ "5511999"
      ⟨"Ana", [toCheckout propC3]⟩ (toCheckout propC3) [] propC3 rfl (by decide) (by decide)).2.2
      "5511999" rfl rfl⟩

/-! ## Claim C7: message consolidation and form by count -/

/-- C7 counterexample.  In the express entrypoint's `buildMessage`, a
recipient with exactly one checkout does NOT get a short one-line form:
the single-task message is the same numbered multi-line form, containing a
newline and the enumerated line "1. ...". -/
theorem C7_counterexample :
    buildMessage "Ana" "23/11" [⟨"Loft A", "airbnb", "11:00"⟩] =
      "Bom dia Ana! Hoje (23/11) temos 1 limpeza:\n1. Loft A (airbnb) checkout às 11:00h" ∧
    strIncludes (buildMessage "Ana" "23/11" [⟨"Loft A", "airbnb", "11:00"⟩]) "\n1. " = true := by
  constructor <;> decide

/-- C7 amended.  Consolidation holds: `byEmployee` holds at most one group
per phone, that group carries every same-day checkout of the phone, and a
dispatched group appends exactly one MessageLog row whose body is built
over the group's full checkout list.  The two message forms by count are
implemented only in `sendCleaningNotification`'s fallback (a short
sentence for one checkout, a bulleted line per checkout for several); the
express entrypoint's `buildMessage` instead uses the numbered multi-line
form for every nonzero count, a single checkout included. -/
theorem C7_amended :
    (∀ props : List PropertyC, ((byEmployee props).map Prod.fst).Nodup) ∧
    (∀ (props : List PropertyC) (ph : String) (g : CleanGroup), (ph, g) ∈ byEmployee props →
      g.checkouts = (props.filter (fun p => p.employeePhone == some ph)).map toCheckout) ∧
    (∀ (cfg : Config) (today : Int) (sOk : String → Bool) (st : RunState) (ph : String)
        (g : CleanGroup) (c0 : Checkout) (rest : List Checkout) (prop : PropertyC),
      g.checkouts = c0 :: rest →
      alreadySentCheck st.db c0.propertyId today = false →
      findProperty cfg c0.propertyId = some prop →
      (processGroup cfg today sOk st (ph, g)).db.messageLogs =
        st.db.messageLogs ++ [⟨"cleaning", "whatsapp", prop.employeePhone,
          cleaningFallbackMessage prop.employeeName prop.name c0.checkoutTime g.checkouts,
          (sendOutcome sOk prop.employeePhone).1⟩]) ∧
    (cleaningFallbackMessage "Ana" "Loft A" "11:00" [⟨1, "Loft A", "11:00"⟩] =
      "Olá Ana! 🧹\n\nHoje tem limpeza no Loft A às 11:00.\n\nBom trabalho! 💪") ∧
    (cleaningFallbackMessage "Ana" "Loft A" "11:00"
        [⟨1, "Loft A", "11:00"⟩, ⟨2, "Casa B", "12:00"⟩] =
      "Olá Ana! 🧹\n\nHoje você tem 2 limpezas:\n\n• Loft A às 11:00\n• Casa B às 12:00\n\nBom trabalho! 💪") ∧
    (buildMessage "Ana" "23/11" [⟨"Loft A", "airbnb", "11:00"⟩, ⟨"Casa B", "booking", "12:00"⟩] =
      "Bom dia Ana! Hoje (23/11) temos 2 limpezas:\n1. Loft A (airbnb) checkout às 11:00h\n2. Casa B (booking) checkout às 12:00h") ∧
    (buildMessage "Ana" "23/11" [⟨"Loft A", "airbnb", "11:00"⟩] =
      "Bom dia Ana! Hoje (23/11) temos 1 limpeza:\n1. Loft A (airbnb) checkout às 11:00h") := by
  refine ⟨byEmployee_keys_nodup, ?_, ?_, by decide, by decide, by decide, by decide⟩
  · intro props ph g hg
    exact (byEmployee_checkouts props ph g hg).1
  · intro cfg today sOk st ph g c0 rest prop hg hpre hfp
    rw [processGroup_eq_of_run cfg today sOk st ph g c0 rest prop hg hpre hfp]
    obtain ⟨-, -, -, hlogs, -⟩ := markAll_shape today (c0 :: rest)
      { st.db with messageLogs := st.db.messageLogs ++
        [(⟨"cleaning", "whatsapp", prop.employeePhone,
          cleaningFallbackMessage prop.employeeName prop.name c0.checkoutTime (c0 :: rest),
          (sendOutcome sOk prop.employeePhone).1⟩ : MsgLog)] }
    rw [hlogs, hg]

/-- Witness for C7 amended: the one-message-per-recipient shape at the
failing-send fixture and the concrete forms. -/
theorem C7_amended_witness :
    ((byEmployee [pW1]).map Prod.fst).Nodup ∧
    (processGroup cfgC3 day20241123 (fun _ => true) ⟨dbC3, 0, 0⟩
        ("5511999", ⟨"Ana", [toCheckout propC3]⟩)).db.messageLogs =
      dbC3.messageLogs ++ [⟨"cleaning", "whatsapp", some "5511999",
        cleaningFallbackMessage "Ana" "Loft A" "11:00" [toCheckout propC3], "sent"⟩] :=
  ⟨C7_amended.1 [pW1],
   C7_amended.2.2.1 cfgC3 day20241123 (fun _ => true) ⟨dbC3, 0, 0⟩ "5511999"
      ⟨"Ana", [toCheckout propC3]⟩ (toCheckout propC3) [] propC3 rfl (by decide) (by decide)⟩

/-! ## Claim C10: the first-property pre-check and the synthetic uid -/

/-- A database holding one checkout-type ProcessedEvent row for property 1
dated today, under an unrelated uid, plus today's reservations for two
properties sharing one employee phone. -/
def dbC10 : Db :=
  ⟨[⟨1, "manual-mark", some day20241123, some "checkout"⟩], [],
   [⟨1, "res-1", msC2End - 86400000, msC2End, "airbnb", "confirmed"⟩,
    ⟨2, "res-2", msC2End - 86400000, msC2End + 3600000, "airbnb", "confirmed"⟩]⟩

/-- The second property of the shared-phone pair. -/
def pC10b : PropertyC :=
  ⟨2, "Casa B", "Ana", some "5511999", some "12:00", true, none, none, none⟩

/-- Configuration with two properties sharing the employee phone. -/
def cfgC10 : Config := ⟨[propC3, pC10b]⟩

/-- C10.  The already-notified pre-check of the cleaning run queries only
the propertyId of the FIRST checkout in the recipient's list: any
checkout-type ProcessedEvent row for that property dated today — whatever
its eventUid — makes the run skip the recipient's entire consolidated
message, the checkouts at the recipient's other properties included; and
every row the run itself writes carries the synthetic uid
`cleaning-<date>` rather than a calendar event's uid. -/
theorem C10_first_property_precheck (cfg : Config) (today : Int) (sendOk : String → Bool)
    (st : RunState) (ph : String) (g : CleanGroup) (c0 : Checkout) (rest : List Checkout)
    (hg : g.checkouts = c0 :: rest) :
    (alreadySentCheck st.db c0.propertyId today = true →
      processGroup cfg today sendOk st (ph, g) = st) ∧
    (∀ uid2 : String, (⟨c0.propertyId, uid2, some today, some "checkout"⟩ : PE) ∈
        st.db.processedEvents → alreadySentCheck st.db c0.propertyId today = true) ∧
    (∀ pe, pe ∈ (processGroup cfg today sendOk st (ph, g)).db.processedEvents →
      pe ∈ st.db.processedEvents ∨
        (pe.eventUid = dayUid today ∧ pe.eventDay = some today)) := by
  refine ⟨fun hpre => processGroup_eq_of_skip cfg today sendOk st ph g c0 rest hg hpre,
    ?_, ?_⟩
  · intro uid2 hmem
    unfold alreadySentCheck
    rw [List.any_eq_true]
    exact ⟨_, hmem, by simp⟩
  · intro pe hpe
    obtain ⟨extPE, extLog, hext, -, -, hrows⟩ := processGroup_shape cfg today sendOk st (ph, g)
    rw [hext] at hpe
    rcases List.mem_append.mp hpe with h | h
    · exact Or.inl h
    · exact Or.inr ⟨(hrows pe h).1, (hrows pe h).2.1⟩

/-- Witness for C10: with a marker row at the first property only (under
uid "manual-mark"), the whole two-property consolidated message is skipped
and the run changes nothing. -/
theorem C10_first_property_precheck_witness :
    processGroup cfgC10 day20241123 (fun _ => true) ⟨dbC10, 0, 0⟩
        ("5511999", ⟨"Ana", [toCheckout propC3, toCheckout pC10b]⟩) =
      (⟨dbC10, 0, 0⟩ : RunState) ∧
    alreadySentCheck dbC10 (toCheckout propC3).propertyId day20241123 = true :=
  ⟨(C10_first_property_precheck cfgC10 day20241123 (fun _ => true) ⟨dbC10, 0, 0⟩
      "5511999" ⟨"Ana", [toCheckout propC3, toCheckout pC10b]⟩ (toCheckout propC3)
      [toCheckout pC10b] rfl).1 (by decide),
   (C10_first_property_precheck cfgC10 day20241123 (fun _ => true) ⟨dbC10, 0, 0⟩
      "5511999" ⟨"Ana", [toCheckout propC3, toCheckout pC10b]⟩ (toCheckout propC3)
      [toCheckout pC10b] rfl).2.1 "manual-mark" (by decide)⟩

end Mevo
